import Mathlib

/-!
Bucketed double-ended queue: `src/deque_pt2/deque_pt2.cpp`.

A shallow embedding of the class template `Deque<T, Allocator>`.

* `size_t` values are natural numbers reduced modulo `2 ^ 64` by the arithmetic
  helpers `uadd`, `usub`, `umul`; `int` values are integers, obtained from
  `size_t` by `toInt` (keep the low 32 bits, two's complement) and converted
  back by `toSizeT`.
* The bucket map `std::vector<T*> map_` is a list whose entries are either
  `none` (a null pointer) or `some b`, the sixteen storage slots of the bucket
  that the pointer owns. A slot is `none` while it is raw storage and `some v`
  once an element has been constructed in it.
* An access through a null bucket pointer, or through a map index outside the
  vector, has no defined behaviour; operations that would write or read an
  element that way return `none`. A destructor call through such an address,
  or on a raw slot, changes nothing in the modelled state (`Deque.destroy`).
* A call of `allocator_traits` is modelled by what the source hands to it.
  `construct` on an iterator, which only an allocator whose traits take the
  iterator accepts, constructs in the slot the iterator addresses
  (`Deque.push_back`, `Deque.push_front`). `deallocate` on a `size_t` value in
  the place of a bucket pointer has no defined behaviour (`deallocate_index`).
  The copy assignment `operator=(const Deque&)` has no instance and is not
  modelled.
* Every bucket is owned by the map entry that points to it; the code never
  stores one bucket pointer in two live map entries, so a bucket is modelled
  in place and releasing a bucket is resetting its entry to `none`.
-/

/-! ## Machine arithmetic -/

/-- Number of values of the type `size_t`. -/
def SIZE_RANGE : Nat := 18446744073709551616

/-- Number of values of the type `int`. -/
def INT_RANGE : Nat := 4294967296

/-- Addition of two `size_t` values. -/
def uadd (a b : Nat) : Nat := (a + b) % SIZE_RANGE

/-- Subtraction of two `size_t` values. -/
def usub (a b : Nat) : Nat := (SIZE_RANGE - b % SIZE_RANGE + a % SIZE_RANGE) % SIZE_RANGE

/-- Multiplication of two `size_t` values. -/
def umul (a b : Nat) : Nat := (a * b) % SIZE_RANGE

/-- Conversion of a `size_t` value to `int`. -/
def toInt (x : Nat) : Int :=
  if x % INT_RANGE < 2147483648 then ((x % INT_RANGE : Nat) : Int)
  else ((x % INT_RANGE : Nat) : Int) - 4294967296

/-- Conversion of an `int` value to `size_t`. -/
def toSizeT (z : Int) : Nat := (z % 18446744073709551616).toNat

/-- Result of an `int` operation, kept in 32 bits. -/
def iwrap (z : Int) : Int := (z + 2147483648) % 4294967296 - 2147483648

/-! ## Data model -/

/-- Value of `kBucketSize`. -/
def kBucketSize : Nat := 16

/-- Value of `kMinBucketNumber`. -/
def kMinBucketNumber : Nat := 4

/-- Storage of one bucket: a slot is `none` while raw, `some v` once constructed. -/
abbrev Bucket (T : Type) := List (Option T)

/-- Result of `alloc_traits::allocate(alloc_, kBucketSize)`: sixteen raw slots. -/
def allocate {T : Type} : Bucket T := List.replicate kBucketSize none

/-- Address of an element slot: the map index of its bucket and the offset inside it. -/
structure Ptr where
  bucket : Nat
  offset : Nat
deriving DecidableEq, Repr

/-- Data members of `Deque`: the bucket map and the two cursors. -/
structure Deque (T : Type) where
  map_ : List (Option (Bucket T))
  start_ : Nat
  end_ : Nat
deriving DecidableEq, Repr

/-- The member function `Iterator::get_ptr(int index)`: the flat index is
narrowed to `int`, then divided by the `size_t` constant `kBucketSize`. -/
def get_ptr (index : Nat) : Ptr :=
  ⟨toSizeT (toInt index) / kBucketSize, toSizeT (toInt index) % kBucketSize⟩

namespace Deque

variable {T : Type}

/-- The constructor `Deque() = default`. -/
def new : Deque T := ⟨[], 0, 0⟩

/-- The member function `size()`. -/
def size (d : Deque T) : Nat := usub d.end_ d.start_

/-- The member function `empty()`. -/
def empty (d : Deque T) : Bool := d.start_ == d.end_

/-- The member function `capacity()`. -/
def capacity (d : Deque T) : Nat := umul kBucketSize d.map_.length

/-- Value held by the slot at `p`, if the slot exists and holds an element. -/
def load (d : Deque T) (p : Ptr) : Option T :=
  match d.map_[p.bucket]? with
  | some (some b) =>
    match b[p.offset]? with
    | some (some v) => some v
    | _ => none
  | _ => none

/-- Effect of `alloc_traits::construct(alloc_, p, v)`, and of an assignment
through a reference to the slot: the slot at `p` holds `v` afterwards. -/
def construct (d : Deque T) (p : Ptr) (v : T) : Option (Deque T) :=
  match d.map_[p.bucket]? with
  | some (some b) =>
    if p.offset < b.length then
      some { d with map_ := d.map_.set p.bucket (some (b.set p.offset (some v))) }
    else none
  | _ => none

/-- Effect of `alloc_traits::destroy(alloc_, p)`: the slot at `p` is raw
afterwards. Where there is no such slot nothing is recorded. -/
def destroy (d : Deque T) (p : Ptr) : Deque T :=
  match d.map_[p.bucket]? with
  | some (some b) => { d with map_ := d.map_.set p.bucket (some (b.set p.offset none)) }
  | _ => d

/-- Slot addressed by `operator[](index)`, that is `*(begin() + index)`. -/
def operator_index (d : Deque T) (index : Nat) : Ptr := get_ptr (uadd d.start_ index)

/-- Value read through `operator[](index)`. -/
def elem (d : Deque T) (index : Nat) : Option T := d.load (d.operator_index index)

/-- The member function `at(index)`. -/
def at_ (d : Deque T) (index : Nat) : Except String Ptr :=
  if index ≥ d.size then Except.error "Index out of range"
  else Except.ok (get_ptr (uadd d.start_ index))

/-- The member function `bucket_reserve(bucket_index)`. -/
def bucket_reserve (d : Deque T) (bucket_index : Nat) : Option (Deque T) :=
  match d.map_[bucket_index]? with
  | none => none
  | some (some _) => some d
  | some none => some { d with map_ := d.map_.set bucket_index (some allocate) }

/-- The loop of `reserve`: iterations `0 .. n - 1` of
`new_map[spare_size + i] = map_[start_bucket + i]`. -/
def reserve_loop (old_map : List (Option (Bucket T))) (start_bucket spare_size : Int) :
    Nat → List (Option (Bucket T)) → Option (List (Option (Bucket T)))
  | 0, new_map => some new_map
  | i + 1, new_map =>
    match reserve_loop old_map start_bucket spare_size i new_map with
    | none => none
    | some m =>
      match old_map[toSizeT (iwrap (start_bucket + i))]? with
      | none => none
      | some b =>
        if toSizeT (iwrap (spare_size + i)) < m.length then
          some (m.set (toSizeT (iwrap (spare_size + i))) b)
        else none

/-- The member function `reserve(new_bucket_capacity)`. -/
def reserve (d : Deque T) (new_bucket_capacity : Nat) : Option (Deque T) :=
  if d.map_.length ≥ new_bucket_capacity then some d
  else
    let start_bucket : Int := toInt (d.start_ / kBucketSize)
    let end_bucket : Int := toInt (usub d.end_ 1 / kBucketSize)
    let bucket_size : Int := iwrap (iwrap (end_bucket - start_bucket) + 1)
    let spare_size : Int := toInt (usub new_bucket_capacity (toSizeT bucket_size) / 2)
    match reserve_loop d.map_ start_bucket spare_size bucket_size.toNat
        (List.replicate new_bucket_capacity none) with
    | none => none
    | some new_map =>
      let size := usub d.end_ d.start_
      let start := umul (toSizeT spare_size) kBucketSize
      some ⟨new_map, start, uadd start size⟩

/-- The member function `push_back(elem)`. The source calls
`alloc_traits::construct(alloc_, end(), elem)` with the iterator `end()` where
`construct` takes a `T*`: the call is ill-formed for `std::allocator`, so the
member has no instance there. The definition is the member for an allocator
whose traits take the iterator and construct in the slot it addresses, the
slot named by the comment `new (std::addressof(*end())) T(elem)`. -/
def push_back (d : Deque T) (v : T) : Option (Deque T) :=
  (if d.end_ ≥ d.capacity then d.reserve (max kMinBucketNumber (umul d.map_.length 2))
   else some d).bind fun d1 =>
  (if d1.end_ % kBucketSize = 0 then d1.bucket_reserve (uadd d1.end_ 1 / kBucketSize)
   else some d1).bind fun d2 =>
  (d2.construct (get_ptr d2.end_) v).bind fun d3 =>
  some { d3 with end_ := uadd d3.end_ 1 }

/-- The member function `push_front(elem)`. The source calls
`alloc_traits::construct(alloc_, begin(), elem)` with the iterator `begin()`
where `construct` takes a `T*`: the call is ill-formed for `std::allocator`,
so the member has no instance there. The definition is the member for an
allocator whose traits take the iterator and construct in the slot it
addresses, the slot named by the comment
`new (std::addressof(*begin())) T(elem)`. -/
def push_front (d : Deque T) (v : T) : Option (Deque T) :=
  (if d.start_ = 0 then d.reserve (max kMinBucketNumber (umul d.map_.length 2))
   else some d).bind fun d1 =>
  (if d1.start_ % kBucketSize = 0 then d1.bucket_reserve (usub d1.start_ 1 / kBucketSize)
   else some d1).bind fun d2 =>
  let d3 : Deque T := { d2 with start_ := usub d2.start_ 1 }
  d3.construct (get_ptr d3.start_) v

/-- Effect of `alloc_traits::deallocate(alloc_, i, kBucketSize)` for a `size_t`
value `i` in the place of the bucket pointer: `i` is not a pointer that
`allocate` returned, so the call releases no bucket and has no defined
behaviour (it is ill-formed for `std::allocator`). -/
def deallocate_index (_i : Nat) : Option Unit := none

/-- The member function `pop_back()`. `&*end()` reads the map entry of the
flat index `end_`, which has to be inside the map. When `end_ % 16 == 1` the
source hands the bucket index `end_ / kBucketSize`, not the bucket pointer
`map_[end_ / kBucketSize]`, to `deallocate` before it resets the map entry. -/
def pop_back (d : Deque T) : Option (Deque T) :=
  if (get_ptr d.end_).bucket < d.map_.length then
    let d1 := d.destroy (get_ptr d.end_)
    (if d1.end_ % kBucketSize = 1 then
       (deallocate_index (d1.end_ / kBucketSize)).bind fun _ =>
       if d1.end_ / kBucketSize < d1.map_.length then
         some { d1 with map_ := d1.map_.set (d1.end_ / kBucketSize) none }
       else none
     else some d1).bind fun d2 =>
    some { d2 with end_ := usub d2.end_ 1 }
  else none

/-- The member function `pop_front()`. `&*begin()` reads the map entry of the
flat index `start_`, which has to be inside the map. When
`start_ % 16 == 15` the source hands the bucket index `end_ / kBucketSize`,
computed from `end_`, to `deallocate` before it resets the map entry
`start_ / kBucketSize`. -/
def pop_front (d : Deque T) : Option (Deque T) :=
  if (get_ptr d.start_).bucket < d.map_.length then
    let d1 := d.destroy (get_ptr d.start_)
    (if d1.start_ % kBucketSize = kBucketSize - 1 then
       (deallocate_index (d1.end_ / kBucketSize)).bind fun _ =>
       if d1.start_ / kBucketSize < d1.map_.length then
         some { d1 with map_ := d1.map_.set (d1.start_ / kBucketSize) none }
       else none
     else some d1).bind fun d2 =>
    some { d2 with start_ := uadd d2.start_ 1 }
  else none

/-- The member function `emplace_back(args...)`, the element built from the
arguments being `v`. -/
def emplace_back (d : Deque T) (v : T) : Option (Deque T) :=
  (if d.end_ ≥ d.capacity then d.reserve (max kMinBucketNumber (umul d.map_.length 2))
   else some d).bind fun d1 =>
  (if d1.end_ % kBucketSize = 0 then d1.bucket_reserve (uadd d1.end_ 1 / kBucketSize)
   else some d1).bind fun d2 =>
  (d2.construct (get_ptr d2.end_) v).bind fun d3 =>
  some { d3 with end_ := uadd d3.end_ 1 }

/-- The member function `emplace_front(args...)`, the element built from the
arguments being `v`. Its body is the body of `emplace_back`. -/
def emplace_front (d : Deque T) (v : T) : Option (Deque T) :=
  (if d.end_ ≥ d.capacity then d.reserve (max kMinBucketNumber (umul d.map_.length 2))
   else some d).bind fun d1 =>
  (if d1.end_ % kBucketSize = 0 then d1.bucket_reserve (uadd d1.end_ 1 / kBucketSize)
   else some d1).bind fun d2 =>
  (d2.construct (get_ptr d2.end_) v).bind fun d3 =>
  some { d3 with end_ := uadd d3.end_ 1 }

/-- The loop of `insert`: `n` iterations of `std::swap(temp_value, *iter); ++iter`
starting with the iterator at flat index `index`. Returns the deque and the
final `temp_value`. -/
def insert_loop (d : Deque T) (index : Nat) (temp_value : T) : Nat → Option (Deque T × T)
  | 0 => some (d, temp_value)
  | n + 1 =>
    (d.load (get_ptr index)).bind fun v =>
    (d.construct (get_ptr index) temp_value).bind fun d1 =>
    insert_loop d1 (uadd index 1) v n

/-- The member function `insert(iterator, value)`; the iterator is given by
its flat index. The loop runs until the iterator equals `end()`, that is
`end_ - index` times. -/
def insert (d : Deque T) (index : Nat) (value : T) : Option (Deque T) :=
  (d.insert_loop index value (usub d.end_ index)).bind fun r => r.1.push_back r.2

/-- The loop of `erase`: `n` iterations of `*iter = *(iter + 1); ++iter`
starting with the iterator at flat index `index`. -/
def erase_loop (d : Deque T) (index : Nat) : Nat → Option (Deque T)
  | 0 => some d
  | n + 1 =>
    (d.load (get_ptr (uadd index 1))).bind fun v =>
    (d.construct (get_ptr index) v).bind fun d1 =>
    erase_loop d1 (uadd index 1) n

/-- The member function `erase(iterator)`; the iterator is given by its flat
index. The loop runs until the iterator equals `end() - 1`. -/
def erase (d : Deque T) (index : Nat) : Option (Deque T) :=
  let d1 := d.destroy (get_ptr index)
  (d1.erase_loop index (usub (usub d1.end_ 1) index)).bind fun d2 =>
  some { d2 with end_ := usub d2.end_ 1 }

/-- The element loop of the copy constructor: iterations `0 .. n - 1` of
`construct(&*elem, other[elem - begin()]); ++elem`, with `elem` starting at
`begin()`. -/
def copy_loop (other : Deque T) : Nat → Deque T → Option (Deque T)
  | 0, d => some d
  | k + 1, d =>
    (copy_loop other k d).bind fun d1 =>
    (other.elem (usub (uadd d1.start_ k) d1.start_)).bind fun v =>
    d1.construct (get_ptr (uadd d1.start_ k)) v

/-- The copy constructor `Deque(const Deque& other)`. One bucket is allocated
for every entry of the map of `other`; the element loop runs until the
iterator equals `end()`, that is `size()` times. -/
def copy (other : Deque T) : Option (Deque T) :=
  copy_loop other (usub other.end_ other.start_)
    ⟨List.replicate other.map_.length (some allocate), other.start_, other.end_⟩

/-- The move constructor `Deque(Deque&& other)`: the new deque, and `other`
as the call leaves it. Moving from `other.map_` leaves that vector empty; the
cursors of `other` are not written. -/
def move (other : Deque T) : Deque T × Deque T :=
  (⟨other.map_, other.start_, other.end_⟩, { other with map_ := [] })

/-- The move assignment `operator=(Deque&& other)` for `this != &other`: the
value of `*this`, and `other` as the call leaves it. `transfer` says that the
allocator propagates on move assignment or equals the allocator of `other`;
otherwise the call is forwarded to `operator=(const Deque&)`, a member that
has no instance (it calls the non-const `begin()` and `end()` on the const
`other`, and `delete_map()` without its argument), so there is no result. -/
def move_assign (_self other : Deque T) (transfer : Bool) : Option (Deque T × Deque T) :=
  if transfer then some (⟨other.map_, other.start_, other.end_⟩, { other with map_ := [] })
  else none

/-- The member function `get_initial_start(bucket_number)`. -/
def get_initial_start (bucket_number : Nat) : Nat := umul (bucket_number / 4) kBucketSize

/-- Doubling search used by `pow2_ceil`. -/
def pow2_search (n : Nat) : Nat → Nat → Nat
  | 0, p => p
  | fuel + 1, p => if n ≤ p then p else pow2_search n fuel (2 * p)

/-- Value of `static_cast<size_t>(std::pow(2, std::ceil(std::log2(n))))` for
a bucket number `n` below `2 ^ 48`, where the floating-point evaluation is
exact: the least power of two that is at least `n`, and `0` for `n = 0`. -/
def pow2_ceil (n : Nat) : Nat := if n = 0 then 0 else pow2_search n 48 1

/-- The member function `count_bucket_capacity(count)`. -/
def count_bucket_capacity (count : Nat) : Nat :=
  max (umul (pow2_ceil (usub (uadd count kBucketSize) 1 / kBucketSize)) 2) kMinBucketNumber

/-- The bucket loop of the sized and initializer-list constructors: iterations
`lo, lo + 1, .., lo + n - 1` of `map_[i] = allocate(kBucketSize)`. -/
def allocate_loop (lo : Nat) : Nat → List (Option (Bucket T)) → Option (List (Option (Bucket T)))
  | 0, m => some m
  | n + 1, m =>
    (allocate_loop lo n m).bind fun m1 =>
    if lo + n < m1.length then some (m1.set (lo + n) (some allocate)) else none

/-- The element loop of the sized and initializer-list constructors: the
values are constructed one after the other through an iterator that starts at
flat index `index`. -/
def construct_loop (d : Deque T) (index : Nat) : List T → Option (Deque T)
  | [] => some d
  | x :: xs => (d.construct (get_ptr index) x).bind fun d1 => construct_loop d1 (uadd index 1) xs

/-- The constructor `Deque(std::initializer_list<T> init, alloc)`. The bucket
loop runs for `i = start_ / 16, .., (end_ - 1) / 16`. -/
def from_list (init : List T) : Option (Deque T) :=
  let bucket_capacity := count_bucket_capacity init.length
  let start := get_initial_start bucket_capacity
  let endv := uadd start init.length
  (allocate_loop (start / kBucketSize)
      (usub endv 1 / kBucketSize + 1 - start / kBucketSize)
      (List.replicate bucket_capacity none)).bind fun m =>
  construct_loop ⟨m, start, endv⟩ start init

/-- The constructor `Deque(size_t count, const T& value, alloc)`. -/
def from_count (count : Nat) (value : T) : Option (Deque T) :=
  let bucket_capacity := count_bucket_capacity count
  let start := get_initial_start bucket_capacity
  let endv := uadd start count
  (allocate_loop (start / kBucketSize)
      (usub endv 1 / kBucketSize + 1 - start / kBucketSize)
      (List.replicate bucket_capacity none)).bind fun m =>
  construct_loop ⟨m, start, endv⟩ start (List.replicate count value)

end Deque

/-! ## Call sequences and the reference queue -/

/-- One call of the four end operations. -/
inductive Op (T : Type) where
  | push_back (v : T)
  | push_front (v : T)
  | pop_back
  | pop_front
deriving DecidableEq, Repr

namespace Op

variable {T : Type}

/-- The call applied to a deque. -/
def apply (d : Deque T) : Op T → Option (Deque T)
  | push_back v => d.push_back v
  | push_front v => d.push_front v
  | pop_back => d.pop_back
  | pop_front => d.pop_front

/-- A sequence of calls applied from left to right. -/
def run (d : Deque T) : List (Op T) → Option (Deque T)
  | [] => some d
  | op :: ops => (apply d op).bind fun d1 => run d1 ops

/-- The call applied to the reference queue, a plain list. -/
def applyRef (l : List T) : Op T → List T
  | push_back v => l ++ [v]
  | push_front v => v :: l
  | pop_back => l.dropLast
  | pop_front => l.drop 1

/-- A sequence of calls applied to the reference queue. -/
def runRef (l : List T) : List (Op T) → List T
  | [] => l
  | op :: ops => runRef (applyRef l op) ops

/-- Pops are issued only while the queue, holding `n` elements, is non-empty. -/
def popsGuarded (n : Nat) : List (Op T) → Bool
  | [] => true
  | push_back _ :: ops => popsGuarded (n + 1) ops
  | push_front _ :: ops => popsGuarded (n + 1) ops
  | pop_back :: ops => decide (0 < n) && popsGuarded (n - 1) ops
  | pop_front :: ops => decide (0 < n) && popsGuarded (n - 1) ops

/-- Number of push calls in a sequence. -/
def pushes : List (Op T) → Nat
  | [] => 0
  | push_back _ :: ops => pushes ops + 1
  | push_front _ :: ops => pushes ops + 1
  | _ :: ops => pushes ops

/-- Number of pop calls in a sequence. -/
def pops : List (Op T) → Nat
  | [] => 0
  | pop_back :: ops => pops ops + 1
  | pop_front :: ops => pops ops + 1
  | _ :: ops => pops ops

end Op

/-- Elements read by `operator[]` at the indices `0 .. size() - 1`. -/
def Deque.contents {T : Type} (d : Deque T) : List (Option T) :=
  (List.range d.size).map d.elem

/-! ## Invariants -/

namespace Deque

variable {T : Type}

/-- Value held by the slot at flat index `i`: bucket `i / 16`, offset `i % 16`. -/
def slot (d : Deque T) (i : Nat) : Option T := d.load ⟨i / kBucketSize, i % kBucketSize⟩

/-- Content of the slot at `p`: `none` when there is no such slot, `some none`
when the slot is raw, `some (some v)` when it holds the element `v`. -/
def raw (d : Deque T) (p : Ptr) : Option (Option T) :=
  match d.map_[p.bucket]? with
  | some (some b) => b[p.offset]?
  | _ => none

/-- Content of the slot at flat index `f`. -/
def cell (d : Deque T) (f : Nat) : Option (Option T) := d.raw ⟨f / 16, f % 16⟩

/-- The container invariant: the cursors are ordered and inside the map, every
bucket has sixteen slots, every bucket index in the occupied range
`[start_ / 16, (end_ - 1) / 16]` is inside the map and non-null, and every
flat index in `[start_, end_)` holds a constructed element. -/
def Inv (d : Deque T) : Prop :=
  d.start_ ≤ d.end_ ∧ d.end_ ≤ kBucketSize * d.map_.length ∧
  (∀ ob ∈ d.map_, ∀ b ∈ ob, List.length b = kBucketSize) ∧
  (∀ j, j < d.map_.length → d.start_ / kBucketSize ≤ j → kBucketSize * j < d.end_ →
    (d.map_[j]?).join.isSome = true) ∧
  (∀ i, i < d.end_ → d.start_ ≤ i → (d.slot i).isSome = true)

instance (d : Deque T) : Decidable d.Inv := by
  unfold Inv
  infer_instance

/-- Bucket layout of the map: for every entry, whether it is null and
otherwise how many slots its bucket has. -/
def layout (d : Deque T) : List (Option Nat) := d.map_.map (Option.map List.length)

/-- The part of the container invariant that concerns the cursors and the
bucket layout only. -/
def Shape (d : Deque T) : Prop :=
  d.start_ ≤ d.end_ ∧ d.end_ ≤ 16 * d.map_.length ∧
  (∀ (j n : Nat), d.layout[j]? = some (some n) → n = 16) ∧
  (∀ j : Nat, d.start_ / 16 ≤ j → 16 * j < d.end_ → d.layout[j]? = some (some 16))

/-- Growth budget after `k` calls: the map has an even number of buckets, at
least four once it exists, and its capacity is bounded by the number of calls
and the distance of the cursors from both ends of the map. -/
def Budget (d : Deque T) (k : Nat) : Prop :=
  d.map_.length % 2 = 0 ∧ (d.map_.length = 0 ∨ 4 ≤ d.map_.length) ∧
  16 * d.map_.length ≤ 4 * k + 64 ∧
  16 * d.map_.length ≤ 2 * k + 32 + 2 * d.start_ ∧
  2 * d.end_ ≤ 16 * d.map_.length + 2 * k + 32

end Deque

/-! ## Iterators and teardown -/

/-- A `Deque::Iterator`, given by its flat index `index_`. The member `data_`
points to the map of the deque the iterator was taken from; all iterators of
one walk come from the same deque, so it is not represented. -/
structure Iterator where
  index_ : Nat
deriving DecidableEq, Repr

namespace Iterator

/-- The member function `operator++()`. -/
def inc (it : Iterator) : Iterator := ⟨uadd it.index_ 1⟩

/-- The member function `operator--()`. -/
def dec (it : Iterator) : Iterator := ⟨usub it.index_ 1⟩

end Iterator

/-- One call that `delete_map` makes on the allocator, the bucket pointer being
named by the index of the map entry that holds it. -/
inductive Teardown where
  | destroy (entry : Nat) (offset : Nat)
  | deallocate (entry : Nat)
deriving DecidableEq, Repr

namespace Deque

variable {T : Type}

/-- The member function `begin()`. -/
def begin (d : Deque T) : Iterator := ⟨d.start_⟩

/-- The member function `end()`. -/
def end_iterator (d : Deque T) : Iterator := ⟨d.end_⟩

/-- Value read by `*it`. -/
def deref (d : Deque T) (it : Iterator) : Option T := d.load (get_ptr it.index_)

/-- The loop `for (it = begin(); it != end(); ++it) visit(*it)`, started at
`it`: the values visited, or `none` when the loop condition still holds after
`fuel` tests. -/
def walk (d : Deque T) : Nat → Iterator → Option (List (Option T))
  | 0, _ => none
  | fuel + 1, it =>
    if it = d.end_iterator then some []
    else (walk d fuel it.inc).map fun rest => d.deref it :: rest

/-- The loop `for (r = rbegin(); r != rend(); ++r) visit(*r)` over
`std::reverse_iterator<iterator>`, started with the wrapped iterator
`current`: `rbegin()` wraps `end()`, `rend()` wraps `begin()`, `*r` reads
`*--tmp` for a copy `tmp` of the wrapped iterator and `++r` decrements it. The
values visited, or `none` when the loop condition still holds after `fuel`
tests. -/
def rwalk (d : Deque T) : Nat → Iterator → Option (List (Option T))
  | 0, _ => none
  | fuel + 1, current =>
    if current = d.begin then some []
    else (rwalk d fuel current.dec).map fun rest => d.deref current.dec :: rest

/-- The member function `delete_map(map)`: the calls it makes, in order. For
every entry of `map_`, null or not, `destroy` is called on each of the sixteen
slot addresses `&bucket[i]` and then `deallocate` on the bucket pointer. -/
def delete_map (d : Deque T) : List Teardown :=
  (List.range d.map_.length).flatMap fun j =>
    (List.range kBucketSize).map (Teardown.destroy j) ++ [Teardown.deallocate j]

/-- The flat indices below the end of the map whose slot holds a constructed
element. -/
def constructed (d : Deque T) : List Nat :=
  (List.range (kBucketSize * d.map_.length)).filter fun f => (d.slot f).isSome

end Deque

/-- One call of the member functions that change the contents. `insert p v`
stands for `insert(begin() + p, v)` and `erase p` for `erase(begin() + p)`. -/
inductive Call (T : Type) where
  | push_back (v : T)
  | push_front (v : T)
  | emplace_back (v : T)
  | pop_back
  | pop_front
  | insert (p : Nat) (v : T)
  | erase (p : Nat)
deriving DecidableEq, Repr

namespace Call

variable {T : Type}

/-- The call applied to a deque. -/
def apply (d : Deque T) : Call T → Option (Deque T)
  | push_back v => d.push_back v
  | push_front v => d.push_front v
  | emplace_back v => d.emplace_back v
  | pop_back => d.pop_back
  | pop_front => d.pop_front
  | insert p v => d.insert (uadd d.start_ p) v
  | erase p => d.erase (uadd d.start_ p)

/-- A sequence of calls applied from left to right. -/
def run (d : Deque T) : List (Call T) → Option (Deque T)
  | [] => some d
  | c :: cs => (apply d c).bind fun d1 => run d1 cs

end Call

/-! ## Concrete inputs -/

/-- One `push_front(100)` followed by `push_back(0)`, .., `push_back(n - 1)`. -/
def frontThenBack (n : Nat) : List (Op Nat) :=
  Op.push_front 100 :: (List.range n).map Op.push_back

/-- The deque reached from the empty deque by `frontThenBack 32`: 33 elements
in flat indices `31 .. 63` of a map of four buckets. -/
def fullDeque : Deque Nat := (Op.run Deque.new (frontThenBack 32)).getD Deque.new

/-- The deque built by `Deque({1, 2, 3, 4})`. -/
def sampleDeque : Deque Nat := (Deque.from_list [1, 2, 3, 4]).getD Deque.new

/-- Three pushes and two pops, each pop issued on a non-empty deque. -/
def mixedCalls : List (Op Nat) :=
  [Op.push_back 1, Op.push_front 2, Op.pop_back, Op.push_back 3, Op.pop_front]

/-- The deque left by `reserve(8)` on `sampleDeque`. -/
def grownSample : Deque Nat := (sampleDeque.reserve 8).getD Deque.new

/-- The deque built by `Deque({7})`. -/
def singleDeque : Deque Nat := (Deque.from_list [7]).getD Deque.new

/-- The deque left by three `pop_front` calls on `Deque({1, 2, 3, 4})`: the
single element 4 at flat index 19. -/
def lastDeque : Deque Nat :=
  (Op.run sampleDeque [Op.pop_front, Op.pop_front, Op.pop_front]).getD Deque.new

/-- The deque reached from the empty deque by 32 calls of `push_front`: 32
elements in flat indices `0 .. 31` of a map of four buckets. -/
def frontDeque : Deque Nat :=
  (Op.run Deque.new ((List.range 32).map Op.push_front)).getD Deque.new

/-- The deque built by `Deque(17, 0)`: 17 elements in flat indices
`16 .. 32`, the last one alone in bucket 2. -/
def seventeenDeque : Deque Nat := (Deque.from_count 17 0).getD Deque.new

/-- The deque left by `push_front(9)` on `Deque({1, 2, 3, 4})`: the element 9
at flat index 15, alone in bucket 0. -/
def frontSample : Deque Nat := (sampleDeque.push_front 9).getD Deque.new

set_option maxRecDepth 100000 in
/-- C1 (fails in the code). The calls `push_front(100), push_back(0), ..,
push_back(32)` respect the precondition and run to completion, but the
elements then read by `operator[]` differ from the reference queue: the last
`push_back` grows the map, `reserve` recentres to a bucket boundary, and index
0 reads a raw slot while the reference queue starts with 100. -/
theorem C1_order_lost_after_growth :
    Op.popsGuarded 0 (frontThenBack 33) = true ∧
    (Op.run Deque.new (frontThenBack 33)).map Deque.contents
      ≠ some ((Op.runRef [] (frontThenBack 33)).map some) ∧
    ((Op.run Deque.new (frontThenBack 33)).bind fun d => d.elem 0) = none ∧
    (Op.runRef [] (frontThenBack 33))[0]? = some 100 ∧
    ((Op.run Deque.new (frontThenBack 33)).bind fun d => d.elem 33) = some 32 ∧
    ((Op.run Deque.new (frontThenBack 33)).bind fun d => d.elem 32) = some 16 ∧
    (Op.runRef [] (frontThenBack 33))[32]? = some 31 := by
  decide

set_option maxRecDepth 100000 in
/-- C2 (fails in the code). `fullDeque` is reached by calls from the empty
deque, satisfies the container invariant, and has `end_ = 16 * map_.size()`
with `start_ = 31`. `push_back(32)` therefore grows the map; afterwards
`operator[](0)` and `operator[](1)` no longer return 100 and 0. -/
theorem C2_growth_changes_elements :
    Op.run Deque.new (frontThenBack 32) = some fullDeque ∧ fullDeque.Inv ∧
    fullDeque.start_ = 31 ∧ fullDeque.end_ = 64 ∧ fullDeque.map_.length = 4 ∧
    fullDeque.end_ ≥ fullDeque.capacity ∧ fullDeque.size = 33 ∧
    fullDeque.elem 0 = some 100 ∧ fullDeque.elem 1 = some 0 ∧ fullDeque.elem 17 = some 16 ∧
    ((fullDeque.push_back 32).map fun d => (d.start_, d.end_, d.map_.length)) = some (32, 66, 8) ∧
    ((fullDeque.push_back 32).bind fun d => d.elem 0) = none ∧
    ((fullDeque.push_back 32).bind fun d => d.elem 1) = none ∧
    ((fullDeque.push_back 32).bind fun d => d.elem 17) = some 1 := by
  decide

set_option maxRecDepth 100000 in
/-- C7 (fails in the code). After the move constructor, and after move
assignment, the moved-from deque built by `Deque({1, 2, 3, 4})` has an empty
map but still `start_ = 16` and `end_ = 20`: the container invariant fails,
`size()` reports 4 elements it does not hold, and a following `push_back`
reads the empty map out of bounds. -/
theorem C7_moved_from_keeps_cursors :
    Deque.from_list [1, 2, 3, 4] = some sampleDeque ∧ sampleDeque.Inv ∧
    sampleDeque.move.2 = ⟨[], 16, 20⟩ ∧ ¬ sampleDeque.move.2.Inv ∧
    sampleDeque.move.2.size = 4 ∧ sampleDeque.move.2.elem 0 = none ∧
    sampleDeque.move.2.push_back 5 = none ∧
    ((Deque.new.move_assign sampleDeque true).map fun r => r.2) = some ⟨[], 16, 20⟩ := by
  decide

set_option maxRecDepth 100000 in
/-- C8 (fails in the code). On `Deque({1, 2, 3, 4})`, `emplace_front(9)`
leaves `start_` at 16, constructs 9 behind the last element and yields
`1, 2, 3, 4, 9`, whereas `push_front(9)` yields `9, 1, 2, 3, 4`. -/
theorem C8_emplace_front_appends :
    Deque.from_list [1, 2, 3, 4] = some sampleDeque ∧
    sampleDeque.contents = [some 1, some 2, some 3, some 4] ∧
    ((sampleDeque.emplace_front 9).map fun d => (d.start_, d.end_)) = some (16, 21) ∧
    (sampleDeque.emplace_front 9).map Deque.contents
      = some [some 1, some 2, some 3, some 4, some 9] ∧
    ((sampleDeque.emplace_front 9).bind fun d => d.elem 0) = some 1 ∧
    sampleDeque.emplace_front 9 = sampleDeque.emplace_back 9 ∧
    ((sampleDeque.push_front 9).map fun d => (d.start_, d.end_)) = some (15, 20) ∧
    (sampleDeque.push_front 9).map Deque.contents
      = some [some 9, some 1, some 2, some 3, some 4] := by
  decide

set_option maxRecDepth 100000 in
/-- C9 (fails in the code). `fullDeque` satisfies the container invariant and
holds `100, 0, 1, .., 31`. `insert(begin() + 0, 7)` ends in a `push_back` that
grows the map; afterwards the size is 34 but `operator[](0)` reads a raw slot
instead of 7 and `operator[](16)` returns 100 instead of 14. -/
theorem C9_insert_loses_order_on_growth :
    fullDeque.Inv ∧ fullDeque.size = 33 ∧
    fullDeque.elem 0 = some 100 ∧ fullDeque.elem 15 = some 14 ∧
    ((fullDeque.insert (uadd fullDeque.start_ 0) 7).map Deque.size) = some 34 ∧
    ((fullDeque.insert (uadd fullDeque.start_ 0) 7).bind fun d => d.elem 0) = none ∧
    ((fullDeque.insert (uadd fullDeque.start_ 0) 7).bind fun d => d.elem 15) = some 7 ∧
    ((fullDeque.insert (uadd fullDeque.start_ 0) 7).bind fun d => d.elem 16) = some 100 := by
  decide

/-! ## Machine arithmetic inside its range -/

section Arithmetic


theorem uadd_small {a b : Nat} (h : a + b < 18446744073709551616) : uadd a b = a + b := by
  unfold uadd SIZE_RANGE
  omega

theorem usub_small {a b : Nat} (hb : b ≤ a) (ha : a < 18446744073709551616) :
    usub a b = a - b := by
  unfold usub SIZE_RANGE
  omega

theorem umul_small {a b : Nat} (h : a * b < 18446744073709551616) : umul a b = a * b := by
  unfold umul SIZE_RANGE
  exact Nat.mod_eq_of_lt h

theorem toInt_small {x : Nat} (h : x < 2147483648) : toInt x = (x : Int) := by
  unfold toInt INT_RANGE
  split <;> omega

theorem toSizeT_natCast {x : Nat} (h : x < 18446744073709551616) : toSizeT (x : Int) = x := by
  unfold toSizeT
  omega

theorem iwrap_small {z : Int} (h1 : -2147483648 ≤ z) (h2 : z < 2147483648) : iwrap z = z := by
  unfold iwrap
  omega

theorem get_ptr_small {i : Nat} (h : i < 2147483648) :
    get_ptr i = ⟨i / 16, i % 16⟩ := by
  unfold get_ptr kBucketSize
  rw [toInt_small h, toSizeT_natCast (by omega)]

/-- Beyond the `int` range `get_ptr` addresses another slot: the flat index
`2 ^ 31` is narrowed to `-2 ^ 31`, and its conversion to `size_t` divided by 16
gives bucket `2 ^ 60 - 2 ^ 27` instead of bucket `2 ^ 27`. -/
theorem get_ptr_narrows : get_ptr 2147483648 = ⟨1152921504472629248, 0⟩ := by
  decide

end Arithmetic

/-! ## Checked access and moves -/

/-- C4. `at(i)` fails with the out-of-range error exactly when `i >= size()`;
for `i < size()` it returns the slot that `operator[](i)` addresses, and it is
a function of the deque that writes nothing. While the flat index
`start_ + i` fits the `int` parameter of `get_ptr`, that slot is bucket
`(start_ + i) / 16`, offset `(start_ + i) % 16`. -/
theorem C4_at_checks_range_then_indexes {T : Type} (d : Deque T) (i : Nat) :
    (d.at_ i = Except.error "Index out of range" ↔ i ≥ d.size) ∧
    (i < d.size → d.at_ i = Except.ok (d.operator_index i)) ∧
    (d.start_ + i < 2147483648 →
      d.operator_index i = ⟨(d.start_ + i) / 16, (d.start_ + i) % 16⟩) := by
  refine ⟨?_, ?_, ?_⟩
  · unfold Deque.at_
    split <;> simp_all
  · intro h
    unfold Deque.at_ Deque.operator_index
    rw [if_neg (by omega)]
  · intro h
    unfold Deque.operator_index
    rw [uadd_small (by omega), get_ptr_small h]

/-- Witness for C4 on `Deque({1, 2, 3, 4})`: index 2 is in range and is
served from bucket 1, offset 2; index 4 is rejected. -/
theorem C4_at_checks_range_then_indexes_witness :
    2 < sampleDeque.size ∧ sampleDeque.start_ + 2 < 2147483648 ∧
    sampleDeque.at_ 2 = Except.ok (sampleDeque.operator_index 2) ∧
    sampleDeque.operator_index 2 = ⟨1, 2⟩ ∧
    sampleDeque.at_ 4 = Except.error "Index out of range" :=
  ⟨by decide, by decide,
   (C4_at_checks_range_then_indexes sampleDeque 2).2.1 (by decide),
   (C4_at_checks_range_then_indexes sampleDeque 2).2.2 (by decide),
   (C4_at_checks_range_then_indexes sampleDeque 4).1.2 (by decide)⟩

/-- C6. The deque built by the move constructor, and the target of a move
assignment whose allocator propagates or equals the source allocator, has the
size of the source and returns at every index the element the source
returned there. -/
theorem C6_move_keeps_elements {T : Type} (src self : Deque T) :
    (src.move.1.size = src.size ∧ (∀ i, src.move.1.elem i = src.elem i) ∧
      src.move.1.contents = src.contents) ∧
    (∃ r, self.move_assign src true = some r ∧ r.1.size = src.size ∧
      (∀ i, r.1.elem i = src.elem i) ∧ r.1.contents = src.contents) :=
  ⟨⟨rfl, fun _ => rfl, rfl⟩, ⟨_, rfl, rfl, fun _ => rfl, rfl⟩⟩

/-! ## Cursors and bucket layout along call sequences -/

section Layout

variable {T : Type}


/-! ## Bucket layout under the primitive operations -/

namespace Deque

theorem layout_getElem? (d : Deque T) (j : Nat) :
    d.layout[j]? = (d.map_[j]?).map (Option.map List.length) := by
  simp [layout]

theorem layout_length (d : Deque T) : d.layout.length = d.map_.length := by
  simp [layout]

theorem map_of_layout {d : Deque T} {j n : Nat} (h : d.layout[j]? = some (some n)) :
    ∃ b, d.map_[j]? = some (some b) ∧ b.length = n := by
  rw [layout_getElem?] at h
  cases hm : d.map_[j]? with
  | none => simp [hm] at h
  | some ob =>
    cases ob with
    | none => simp [hm] at h
    | some b => exact ⟨b, rfl, by simpa [hm] using h⟩

theorem layout_set_bucket (d : Deque T) (j : Nat) (b : Bucket T) :
    (List.set d.map_ j (some b)).map (Option.map List.length)
      = d.layout.set j (some b.length) := by
  simp [layout, List.map_set]

theorem set_same_layout {l : List (Option Nat)} {j : Nat} {x : Option Nat}
    (h : l[j]? = some x) : l.set j x = l := by
  apply List.ext_getElem?
  intro n
  rw [List.getElem?_set]
  split
  · next hjn =>
    subst hjn
    have hlt : j < l.length := by
      rcases List.getElem?_eq_some.mp h with ⟨hlt, _⟩
      exact hlt
    rw [if_pos hlt, h]
  · rfl

theorem construct_spec {d : Deque T} {p : Ptr} {n : Nat} (v : T)
    (h : d.layout[p.bucket]? = some (some n)) (ho : p.offset < n) :
    ∃ d1, d.construct p v = some d1 ∧ d1.layout = d.layout ∧
      d1.start_ = d.start_ ∧ d1.end_ = d.end_ := by
  obtain ⟨b, hb, hlen⟩ := map_of_layout h
  refine ⟨{ d with map_ := d.map_.set p.bucket (some (b.set p.offset (some v))) }, ?_, ?_, rfl, rfl⟩
  · unfold construct
    rw [hb]
    simp only
    rw [if_pos (by omega)]
  · show (List.set d.map_ p.bucket (some (b.set p.offset (some v)))).map _ = d.layout
    rw [layout_set_bucket, List.length_set, hlen]
    exact set_same_layout h

theorem destroy_spec (d : Deque T) (p : Ptr) :
    (d.destroy p).layout = d.layout ∧ (d.destroy p).start_ = d.start_ ∧
      (d.destroy p).end_ = d.end_ := by
  unfold destroy
  cases hm : d.map_[p.bucket]? with
  | none => exact ⟨rfl, rfl, rfl⟩
  | some ob =>
    cases ob with
    | none => exact ⟨rfl, rfl, rfl⟩
    | some b =>
      refine ⟨?_, rfl, rfl⟩
      show (List.set d.map_ p.bucket (some (b.set p.offset none))).map _ = d.layout
      rw [layout_set_bucket, List.length_set]
      apply set_same_layout
      rw [layout_getElem?, hm]
      rfl

theorem bucket_reserve_spec {d : Deque T} {j : Nat} (hj : j < d.map_.length)
    (h16 : ∀ (i n : Nat), d.layout[i]? = some (some n) → n = 16) :
    ∃ d1, d.bucket_reserve j = some d1 ∧ d1.layout = d.layout.set j (some 16) ∧
      d1.start_ = d.start_ ∧ d1.end_ = d.end_ := by
  unfold bucket_reserve
  cases hm : d.map_[j]? with
  | none =>
    rw [List.getElem?_eq_none_iff] at hm
    omega
  | some ob =>
    cases ob with
    | none =>
      refine ⟨_, rfl, ?_, rfl, rfl⟩
      show (List.set d.map_ j (some allocate)).map _ = _
      rw [layout_set_bucket]
      simp [allocate, kBucketSize]
    | some b =>
      refine ⟨_, rfl, ?_, rfl, rfl⟩
      have hl : d.layout[j]? = some (some b.length) := by
        rw [layout_getElem?, hm]
        rfl
      rw [← h16 j b.length hl]
      exact (set_same_layout hl).symm

end Deque
theorem toSizeT_iwrap_add {a b : Nat} (h : a + b < 2147483648) :
    toSizeT (iwrap ((a : Int) + (b : Int))) = a + b := by
  unfold toSizeT iwrap
  omega

namespace Deque

/-- The copy loop of `reserve` stays inside both maps and places the `n`
occupied buckets, in order, from index `sp` on; every other entry is null. -/
theorem reserve_loop_spec (old : List (Option (Bucket T))) (sb sp c : Nat) :
    ∀ n, sb + n ≤ old.length → sp + n ≤ c → c < 2147483648 → old.length < 2147483648 →
      ∃ m, reserve_loop old (sb : Int) (sp : Int) n (List.replicate c none) = some m ∧
        m.length = c ∧
        ∀ j, m[j]? = if sp ≤ j ∧ j < sp + n then old[sb + (j - sp)]?
                      else if j < c then some none else none := by
  intro n
  induction n with
  | zero =>
    intro _ _ _ _
    refine ⟨_, rfl, by simp, ?_⟩
    intro j
    rw [if_neg (by omega), List.getElem?_replicate]
  | succ n ih =>
    intro h1 h2 h3 h4
    obtain ⟨m, hm, hlen, hget⟩ := ih (by omega) (by omega) h3 h4
    have hsrc : toSizeT (iwrap ((sb : Int) + (n : Int))) = sb + n :=
      toSizeT_iwrap_add (by omega)
    have hdst : toSizeT (iwrap ((sp : Int) + (n : Int))) = sp + n :=
      toSizeT_iwrap_add (by omega)
    have hold : old[sb + n]? = some (old[sb + n]) := List.getElem?_eq_getElem (by omega)
    refine ⟨m.set (sp + n) (old[sb + n]), ?_, by simpa using hlen, ?_⟩
    · simp only [reserve_loop, hm, hsrc, hdst, hold]
      rw [if_pos (by omega)]
    · intro j
      rw [List.getElem?_set]
      by_cases hj : sp + n = j
      · subst hj
        rw [if_pos rfl, if_pos (by omega), if_pos (by omega)]
        have : sb + (sp + n - sp) = sb + n := by omega
        rw [this, hold]
      · rw [if_neg hj, hget j]
        by_cases hr : sp ≤ j ∧ j < sp + n
        · have hr1 : sp ≤ j ∧ j < sp + (n + 1) := by omega
          rw [if_pos hr, if_pos hr1]
        · have hr1 : ¬ (sp ≤ j ∧ j < sp + (n + 1)) := by omega
          rw [if_neg hr, if_neg hr1]

/-- Number of buckets that `reserve` takes to be occupied. -/
theorem reserve_arith {s e len c : Nat} (hse : s ≤ e) (hel : e ≤ 16 * len) (hlc : len < c)
    (hc : 16 * c ≤ 2147483648) :
    toInt (s / kBucketSize) = ((s / 16 : Nat) : Int) ∧
    iwrap (iwrap (toInt (usub e 1 / kBucketSize) - ((s / 16 : Nat) : Int)) + 1)
      = (((e + 15) / 16 - s / 16 : Nat) : Int) ∧
    toInt (usub c (toSizeT (((e + 15) / 16 - s / 16 : Nat) : Int)) / 2)
      = ((((c - ((e + 15) / 16 - s / 16)) / 2 : Nat)) : Int) ∧
    toSizeT ((((c - ((e + 15) / 16 - s / 16)) / 2 : Nat)) : Int)
      = (c - ((e + 15) / 16 - s / 16)) / 2 := by
  have h1 : toInt (s / kBucketSize) = ((s / 16 : Nat) : Int) := by
    unfold kBucketSize
    exact toInt_small (by omega)
  have h2 : toInt (usub e 1 / kBucketSize) = (((e + 15) / 16 : Nat) : Int) - 1 := by
    unfold toInt usub kBucketSize SIZE_RANGE INT_RANGE
    by_cases he : e = 0
    · subst he
      decide
    · have : (18446744073709551616 - 1 % 18446744073709551616 + e % 18446744073709551616)
          % 18446744073709551616 = e - 1 := by omega
      rw [this]
      split <;> omega
  refine ⟨h1, ?_, ?_, ?_⟩
  · rw [h2]
    unfold iwrap
    omega
  · have h3 : toSizeT (((e + 15) / 16 - s / 16 : Nat) : Int) = (e + 15) / 16 - s / 16 :=
      toSizeT_natCast (by omega)
    rw [h3, usub_small (by omega) (by omega)]
    exact toInt_small (by omega)
  · exact toSizeT_natCast (by omega)

theorem reserve_spec {d : Deque T} {c : Nat} (hse : d.start_ ≤ d.end_)
    (hel : d.end_ ≤ 16 * d.map_.length) (hlc : d.map_.length < c)
    (hc : 16 * c ≤ 2147483648) :
    ∃ d1, d.reserve c = some d1 ∧ d1.map_.length = c ∧
      d1.start_ = 16 * ((c - ((d.end_ + 15) / 16 - d.start_ / 16)) / 2) ∧
      d1.end_ = d1.start_ + (d.end_ - d.start_) ∧
      ∀ j, d1.map_[j]? =
        if (c - ((d.end_ + 15) / 16 - d.start_ / 16)) / 2 ≤ j ∧
            j < (c - ((d.end_ + 15) / 16 - d.start_ / 16)) / 2
              + ((d.end_ + 15) / 16 - d.start_ / 16)
        then d.map_[d.start_ / 16 + (j - (c - ((d.end_ + 15) / 16 - d.start_ / 16)) / 2)]?
        else if j < c then some none else none := by
  obtain ⟨a1, a2, a3, a4⟩ := reserve_arith hse hel hlc hc
  obtain ⟨m, hm, hlen, hget⟩ := reserve_loop_spec d.map_ (d.start_ / 16)
    ((c - ((d.end_ + 15) / 16 - d.start_ / 16)) / 2) c
    ((d.end_ + 15) / 16 - d.start_ / 16) (by omega) (by omega) (by omega) (by omega)
  refine ⟨⟨m, 16 * ((c - ((d.end_ + 15) / 16 - d.start_ / 16)) / 2),
    16 * ((c - ((d.end_ + 15) / 16 - d.start_ / 16)) / 2) + (d.end_ - d.start_)⟩,
    ?_, hlen, rfl, rfl, hget⟩
  unfold reserve
  rw [if_neg (by omega)]
  simp only [a1, a2, a3, a4, Int.toNat_ofNat, hm]
  have u1 : umul ((c - ((d.end_ + 15) / 16 - d.start_ / 16)) / 2) kBucketSize
      = 16 * ((c - ((d.end_ + 15) / 16 - d.start_ / 16)) / 2) := by
    rw [umul_small (by unfold kBucketSize; omega)]
    unfold kBucketSize
    omega
  have u2 : usub d.end_ d.start_ = d.end_ - d.start_ := usub_small hse (by omega)
  rw [u1, u2, uadd_small (by omega)]

end Deque

namespace Deque


theorem map_length_of_layout_eq {d d1 : Deque T} (h : d1.layout = d.layout) :
    d1.map_.length = d.map_.length := by
  rw [← layout_length, ← layout_length, h]

theorem shape_of_layout_eq {d d1 : Deque T} (hl : d1.layout = d.layout)
    (hs : d1.start_ = d.start_) (he : d1.end_ = d.end_) (h : d.Shape) : d1.Shape := by
  unfold Shape at *
  rw [hl, hs, he, map_length_of_layout_eq hl]
  exact h

theorem reserve_grow {d : Deque T} {k : Nat} (hs : d.Shape) (hb : d.Budget k)
    (htrig : d.end_ = 16 * d.map_.length ∨ d.start_ = 0) (hk : 4 * k + 64 ≤ 2147483648) :
    ∃ d1, d.reserve (max kMinBucketNumber (umul d.map_.length 2)) = some d1 ∧ d1.Shape ∧
      d1.Budget k ∧ 0 < d1.start_ ∧ d1.end_ < 16 * d1.map_.length ∧
      d1.end_ - d1.start_ = d.end_ - d.start_ := by
  obtain ⟨hse, hel, h16, hocc⟩ := hs
  obtain ⟨heven, hlen04, hcap, hst, hen⟩ := hb
  have hlen : 16 * d.map_.length ≤ 2 * k + 32 := by omega
  have hmul : umul d.map_.length 2 = 2 * d.map_.length := by
    rw [umul_small (by omega)]
    omega
  rw [hmul]
  unfold kMinBucketNumber
  generalize hcdef : max 4 (2 * d.map_.length) = c
  have hc1 : d.map_.length < c := by omega
  have hc2 : 16 * c ≤ 4 * k + 64 := by omega
  have hc3 : c % 2 = 0 ∧ 4 ≤ c ∧ c ≤ 2 * d.map_.length + 4 ∧ 2 * d.map_.length ≤ c := by omega
  obtain ⟨d1, hres, hlen1, hstart1, hend1, hget⟩ := reserve_spec hse hel hc1 (by omega)
  generalize hoccdef : (d.end_ + 15) / 16 - d.start_ / 16 = occ at hstart1 hget
  generalize hspdef : (c - occ) / 2 = sp at hstart1 hget
  have ho1 : occ ≤ d.map_.length := by omega
  have ho2 : d.end_ - d.start_ ≤ 16 * occ := by omega
  have hlay : ∀ j, d1.layout[j]? =
      if sp ≤ j ∧ j < sp + occ then d.layout[d.start_ / 16 + (j - sp)]?
      else if j < c then some none else none := by
    intro j
    rw [layout_getElem?, hget j, layout_getElem?]
    split
    · rfl
    · split <;> rfl
  refine ⟨d1, hres, ⟨by omega, by omega, ?_, ?_⟩, ⟨by omega, by omega, by omega, by omega, by omega⟩,
    by omega, by omega, by omega⟩
  · intro j n hj
    rw [hlay j] at hj
    split at hj
    · exact h16 _ _ hj
    · split at hj <;> simp at hj
  · intro j hj1 hj2
    have hw : sp ≤ j ∧ j < sp + occ := by omega
    rw [hlay j, if_pos hw]
    exact hocc _ (by omega) (by omega)

theorem push_back_tail {d1 : Deque T} (v : T) (hs : d1.Shape)
    (he : d1.end_ < 16 * d1.map_.length) (hr : 16 * d1.map_.length ≤ 2147483648) :
    ∃ d3, ((if d1.end_ % kBucketSize = 0 then d1.bucket_reserve (uadd d1.end_ 1 / kBucketSize)
            else some d1).bind fun d2 =>
          (d2.construct (get_ptr d2.end_) v).bind fun d3 =>
          some { d3 with end_ := uadd d3.end_ 1 }) = some d3 ∧
      d3.Shape ∧ d3.map_.length = d1.map_.length ∧ d3.start_ = d1.start_ ∧
      d3.end_ = d1.end_ + 1 := by
  obtain ⟨hse, hel, h16, hocc⟩ := hs
  -- the bucket of the new slot exists after the optional `bucket_reserve`
  have step2 : ∃ d2, (if d1.end_ % kBucketSize = 0 then
        d1.bucket_reserve (uadd d1.end_ 1 / kBucketSize) else some d1) = some d2 ∧
      d2.start_ = d1.start_ ∧ d2.end_ = d1.end_ ∧
      (d2.layout = d1.layout ∨ d2.layout = d1.layout.set (d1.end_ / 16) (some 16)) ∧
      d2.layout[d1.end_ / 16]? = some (some 16) := by
    by_cases hm : d1.end_ % kBucketSize = 0
    · rw [if_pos hm]
      unfold kBucketSize at hm
      have hidx : uadd d1.end_ 1 / kBucketSize = d1.end_ / 16 := by
        rw [uadd_small (by omega)]
        unfold kBucketSize
        omega
      rw [hidx]
      obtain ⟨d2, h2, hl2, hs2, he2⟩ :=
        bucket_reserve_spec (d := d1) (j := d1.end_ / 16) (by omega) h16
      refine ⟨d2, h2, hs2, he2, Or.inr hl2, ?_⟩
      rw [hl2, List.getElem?_set_self (by rw [layout_length]; omega)]
    · rw [if_neg hm]
      unfold kBucketSize at hm
      exact ⟨d1, rfl, rfl, rfl, Or.inl rfl, hocc _ (by omega) (by omega)⟩
  obtain ⟨d2, h2, hs2, he2, hl2, hb2⟩ := step2
  have hptr : get_ptr d2.end_ = ⟨d1.end_ / 16, d1.end_ % 16⟩ := by
    rw [he2]
    exact get_ptr_small (by omega)
  have hb2' : d2.layout[(get_ptr d2.end_).bucket]? = some (some 16) := by
    rw [hptr]
    exact hb2
  obtain ⟨d3, h3, hl3, hs3, he3⟩ := construct_spec (d := d2) (p := get_ptr d2.end_) v hb2'
    (by rw [hptr]; show d1.end_ % 16 < 16; omega)
  have hlen3 : d3.map_.length = d1.map_.length := by
    rw [map_length_of_layout_eq hl3]
    rcases hl2 with hl2 | hl2
    · exact map_length_of_layout_eq hl2
    · rw [← layout_length, hl2, List.length_set, layout_length]
  refine ⟨{ d3 with end_ := uadd d3.end_ 1 }, ?_, ?_, hlen3, ?_, ?_⟩
  · rw [h2]
    simp only [Option.bind_some, Option.some_bind, h3]
  · have hend : uadd d3.end_ 1 = d1.end_ + 1 := by
      rw [he3, he2, uadd_small (by omega)]
    refine ⟨?_, ?_, ?_, ?_⟩
    · show d3.start_ ≤ uadd d3.end_ 1
      rw [hend, hs3, hs2]
      omega
    · show uadd d3.end_ 1 ≤ 16 * d3.map_.length
      rw [hend, hlen3]
      omega
    · intro j n hj
      have hj' : d3.layout[j]? = some (some n) := hj
      rw [hl3] at hj'
      rcases hl2 with hl2 | hl2
      · rw [hl2] at hj'
        exact h16 _ _ hj'
      · rw [hl2, List.getElem?_set] at hj'
        split at hj'
        · split at hj'
          · simp at hj'
            omega
          · simp at hj'
        · exact h16 _ _ hj'
    · intro j hj1 hj2
      have hj1' : d1.start_ / 16 ≤ j := by
        have : d3.start_ = d1.start_ := by rw [hs3, hs2]
        have hj1c : d3.start_ / 16 ≤ j := hj1
        rw [this] at hj1c
        exact hj1c
      have hj2' : 16 * j < d1.end_ + 1 := by
        have hj2c : 16 * j < uadd d3.end_ 1 := hj2
        rw [hend] at hj2c
        exact hj2c
      show d3.layout[j]? = some (some 16)
      rw [hl3]
      by_cases hjj : j = d1.end_ / 16
      · rw [hjj]
        exact hb2
      · have hold : d1.layout[j]? = some (some 16) := hocc j hj1' (by omega)
        rcases hl2 with hl2 | hl2
        · rw [hl2]
          exact hold
        · rw [hl2, List.getElem?_set_ne (by omega)]
          exact hold
  · show d3.start_ = d1.start_
    rw [hs3, hs2]
  · show uadd d3.end_ 1 = d1.end_ + 1
    rw [he3, he2, uadd_small (by omega)]

end Deque

namespace Deque

theorem layout_with_start (d : Deque T) (x : Nat) :
    ({ d with start_ := x } : Deque T).layout = d.layout := rfl

theorem push_front_tail {d1 : Deque T} (v : T) (hs : d1.Shape)
    (hpos : 0 < d1.start_) (hr : 16 * d1.map_.length ≤ 2147483648) :
    ∃ d3, ((if d1.start_ % kBucketSize = 0 then
              d1.bucket_reserve (usub d1.start_ 1 / kBucketSize)
            else some d1).bind fun d2 =>
          (({ d2 with start_ := usub d2.start_ 1 } : Deque T).construct
            (get_ptr (usub d2.start_ 1)) v)) = some d3 ∧
      d3.Shape ∧ d3.map_.length = d1.map_.length ∧ d3.start_ + 1 = d1.start_ ∧
      d3.end_ = d1.end_ := by
  obtain ⟨hse, hel, h16, hocc⟩ := hs
  have hsub : usub d1.start_ 1 = d1.start_ - 1 := usub_small (by omega) (by omega)
  have step2 : ∃ d2, (if d1.start_ % kBucketSize = 0 then
        d1.bucket_reserve (usub d1.start_ 1 / kBucketSize) else some d1) = some d2 ∧
      d2.start_ = d1.start_ ∧ d2.end_ = d1.end_ ∧
      (d2.layout = d1.layout ∨ d2.layout = d1.layout.set ((d1.start_ - 1) / 16) (some 16)) ∧
      d2.layout[(d1.start_ - 1) / 16]? = some (some 16) := by
    by_cases hm : d1.start_ % kBucketSize = 0
    · rw [if_pos hm]
      unfold kBucketSize at hm
      have hidx : usub d1.start_ 1 / kBucketSize = (d1.start_ - 1) / 16 := by
        rw [hsub]
        rfl
      rw [hidx]
      obtain ⟨d2, h2, hl2, hs2, he2⟩ :=
        bucket_reserve_spec (d := d1) (j := (d1.start_ - 1) / 16) (by omega) h16
      refine ⟨d2, h2, hs2, he2, Or.inr hl2, ?_⟩
      rw [hl2, List.getElem?_set_self (by rw [layout_length]; omega)]
    · rw [if_neg hm]
      unfold kBucketSize at hm
      exact ⟨d1, rfl, rfl, rfl, Or.inl rfl, hocc _ (by omega) (by omega)⟩
  obtain ⟨d2, h2, hs2, he2, hl2, hb2⟩ := step2
  have hptr : get_ptr (usub d2.start_ 1) = ⟨(d1.start_ - 1) / 16, (d1.start_ - 1) % 16⟩ := by
    rw [hs2, hsub]
    exact get_ptr_small (by omega)
  have hb2' : ({ d2 with start_ := usub d2.start_ 1 } : Deque T).layout[
      (get_ptr (usub d2.start_ 1)).bucket]? = some (some 16) := by
    rw [layout_with_start, hptr]
    exact hb2
  have hoff : (get_ptr (usub d2.start_ 1)).offset < 16 := by
    rw [hptr]
    exact Nat.mod_lt _ (by decide)
  obtain ⟨d3, h3, hl3, hs3, he3⟩ := construct_spec
    (d := ({ d2 with start_ := usub d2.start_ 1 } : Deque T))
    (p := get_ptr (usub d2.start_ 1)) v hb2' hoff
  have hl3' : d3.layout = d2.layout := by
    rw [hl3, layout_with_start]
  have hs3' : d3.start_ = d1.start_ - 1 := by
    rw [hs3]
    show usub d2.start_ 1 = d1.start_ - 1
    rw [hs2, hsub]
  have he3' : d3.end_ = d1.end_ := by
    rw [he3]
    exact he2
  have hlen3 : d3.map_.length = d1.map_.length := by
    rw [map_length_of_layout_eq hl3']
    rcases hl2 with hl2 | hl2
    · exact map_length_of_layout_eq hl2
    · rw [← layout_length, hl2, List.length_set, layout_length]
  refine ⟨d3, ?_, ⟨?_, ?_, ?_, ?_⟩, hlen3, by omega, he3'⟩
  · rw [h2]
    simp only [Option.bind_some, Option.some_bind, h3]
  · omega
  · rw [he3', hlen3]
    exact hel
  · intro j n hj
    rw [hl3'] at hj
    rcases hl2 with hl2 | hl2
    · rw [hl2] at hj
      exact h16 _ _ hj
    · rw [hl2, List.getElem?_set] at hj
      split at hj
      · split at hj
        · simp at hj
          omega
        · simp at hj
      · exact h16 _ _ hj
  · intro j hj1 hj2
    rw [hs3'] at hj1
    rw [he3'] at hj2
    rw [hl3']
    by_cases hjj : j = (d1.start_ - 1) / 16
    · rw [hjj]
      exact hb2
    · have hold : d1.layout[j]? = some (some 16) := hocc j (by omega) hj2
      rcases hl2 with hl2 | hl2
      · rw [hl2]
        exact hold
      · rw [hl2, List.getElem?_set_ne (by omega)]
        exact hold

theorem layout_set_null (d : Deque T) (j : Nat) :
    ({ d with map_ := d.map_.set j none } : Deque T).layout = d.layout.set j none := by
  simp [layout, List.map_set]

theorem layout_mk (m : List (Option (Bucket T))) (s e : Nat) :
    (⟨m, s, e⟩ : Deque T).layout = m.map (Option.map List.length) := rfl

theorem shape_drop_bucket {d0 : Deque T} {s e i : Nat} (hs : d0.Shape)
    (hse : s ≤ e) (hee : e ≤ d0.end_) (hss : d0.start_ ≤ s)
    (hi : ∀ j, s / 16 ≤ j → 16 * j < e → j ≠ i) :
    (⟨d0.map_.set i none, s, e⟩ : Deque T).Shape := by
  obtain ⟨_, hel, h16, hocc⟩ := hs
  have hlay : (⟨d0.map_.set i none, s, e⟩ : Deque T).layout = d0.layout.set i none := by
    rw [layout_mk, List.map_set]
    rfl
  unfold Shape
  rw [hlay]
  dsimp only
  rw [List.length_set]
  refine ⟨hse, by omega, ?_, ?_⟩
  · intro j n hj
    rw [List.getElem?_set] at hj
    split at hj
    · split at hj <;> simp at hj
    · exact h16 _ _ hj
  · intro j hj1 hj2
    rw [List.getElem?_set_ne (Ne.symm (hi j hj1 hj2))]
    exact hocc j (by omega) (by omega)

theorem shape_move_cursors {d0 : Deque T} {s e : Nat} (hs : d0.Shape)
    (hse : s ≤ e) (hee : e ≤ d0.end_) (hss : d0.start_ ≤ s) :
    (⟨d0.map_, s, e⟩ : Deque T).Shape := by
  obtain ⟨_, hel, h16, hocc⟩ := hs
  have hlay : (⟨d0.map_, s, e⟩ : Deque T).layout = d0.layout := rfl
  unfold Shape
  rw [hlay]
  dsimp only
  refine ⟨hse, by omega, h16, ?_⟩
  intro j hj1 hj2
  exact hocc j (by omega) (by omega)


end Deque

namespace Deque

theorem budget_step {d1 d3 : Deque T} {k : Nat} (hb : d1.Budget k)
    (hlen : d3.map_.length = d1.map_.length) (hs : d1.start_ ≤ d3.start_ + 1)
    (he : d3.end_ ≤ d1.end_ + 1) : d3.Budget (k + 1) := by
  unfold Budget at *
  rw [hlen]
  omega

theorem push_back_step {d : Deque T} {k : Nat} (v : T) (hs : d.Shape) (hb : d.Budget k)
    (hk : 4 * k + 64 ≤ 2147483648) :
    ∃ d1, d.push_back v = some d1 ∧ d1.Shape ∧ d1.Budget (k + 1) ∧
      d1.end_ - d1.start_ = d.end_ - d.start_ + 1 := by
  have hcap : d.capacity = 16 * d.map_.length := by
    unfold capacity kBucketSize
    exact umul_small (by have := hb.2.2.1; omega)
  unfold push_back
  rw [hcap]
  by_cases hfull : d.end_ ≥ 16 * d.map_.length
  · rw [if_pos hfull]
    obtain ⟨d1, h1, hs1, hb1, _, he1, hsz1⟩ :=
      reserve_grow hs hb (Or.inl (by have := hs.2.1; omega)) hk
    obtain ⟨d3, h3, hs3, hlen3, hst3, hen3⟩ :=
      push_back_tail v hs1 he1 (by have := hb1.2.2.1; omega)
    rw [h1]
    refine ⟨d3, h3, hs3, budget_step hb1 hlen3 (by omega) (by omega), ?_⟩
    have := hs1.1
    have := hs.1
    omega
  · rw [if_neg hfull]
    obtain ⟨d3, h3, hs3, hlen3, hst3, hen3⟩ :=
      push_back_tail v hs (by omega) (by have := hb.2.2.1; omega)
    refine ⟨d3, h3, hs3, budget_step hb hlen3 (by omega) (by omega), ?_⟩
    have := hs.1
    omega

theorem push_front_step {d : Deque T} {k : Nat} (v : T) (hs : d.Shape) (hb : d.Budget k)
    (hk : 4 * k + 64 ≤ 2147483648) :
    ∃ d1, d.push_front v = some d1 ∧ d1.Shape ∧ d1.Budget (k + 1) ∧
      d1.end_ - d1.start_ = d.end_ - d.start_ + 1 := by
  unfold push_front
  by_cases hzero : d.start_ = 0
  · rw [if_pos hzero]
    obtain ⟨d1, h1, hs1, hb1, hp1, _, hsz1⟩ := reserve_grow hs hb (Or.inr hzero) hk
    obtain ⟨d3, h3, hs3, hlen3, hst3, hen3⟩ :=
      push_front_tail v hs1 hp1 (by have := hb1.2.2.1; omega)
    rw [h1]
    refine ⟨d3, h3, hs3, budget_step hb1 hlen3 (by omega) (by omega), ?_⟩
    have := hs1.1
    have := hs.1
    omega
  · rw [if_neg hzero]
    obtain ⟨d3, h3, hs3, hlen3, hst3, hen3⟩ :=
      push_front_tail v hs (by omega) (by have := hb.2.2.1; omega)
    refine ⟨d3, h3, hs3, budget_step hb hlen3 (by omega) (by omega), ?_⟩
    have := hs.1
    omega

end Deque


theorem Deque.new_shape : (Deque.new : Deque T).Shape := by
  refine ⟨le_refl _, by simp [Deque.new], ?_, ?_⟩
  · intro j n hj
    simp [Deque.layout, Deque.new] at hj
  · intro j _ hj
    simp [Deque.new] at hj

theorem Deque.new_budget : (Deque.new : Deque T).Budget 0 := by
  simp [Deque.Budget, Deque.new]

theorem usub_lt (a b : Nat) : usub a b < 18446744073709551616 := by
  unfold usub SIZE_RANGE
  omega

theorem usub_uadd_cancel (x s : Nat) (hs : s < 18446744073709551616) :
    usub (uadd x s) x = s := by
  unfold usub uadd SIZE_RANGE
  omega

theorem Deque.reserve_cursors {d d1 : Deque T} {c : Nat} (h : d.reserve c = some d1) :
    d1 = d ∨ ∃ x, d1.start_ = x ∧ d1.end_ = uadd x (usub d.end_ d.start_) := by
  unfold Deque.reserve at h
  split at h
  · injection h with h
    exact Or.inl h.symm
  · simp only [] at h
    split at h
    · cases h
    · injection h with h
      rw [← h]
      exact Or.inr ⟨_, rfl, rfl⟩

theorem Deque.reserve_size {d d1 : Deque T} {c : Nat} (h : d.reserve c = some d1) :
    d1.size = d.size := by
  rcases Deque.reserve_cursors h with h1 | ⟨x, hx, he⟩
  · rw [h1]
  · unfold Deque.size
    rw [hx, he]
    exact usub_uadd_cancel _ _ (usub_lt _ _)

end Layout


/-! ## Slot contents under construction and destruction -/

section Contents

variable {T : Type}

namespace Deque

theorem load_eq_raw (d : Deque T) (p : Ptr) : d.load p = (d.raw p).join := by
  unfold load raw
  cases h1 : d.map_[p.bucket]? with
  | none => rfl
  | some ob =>
    cases ob with
    | none => rfl
    | some b =>
      simp only
      cases h2 : b[p.offset]? with
      | none => rfl
      | some ov =>
        cases ov <;> rfl

theorem raw_of_layout {d : Deque T} {p : Ptr} {n : Nat}
    (h : d.layout[p.bucket]? = some (some n)) (ho : p.offset < n) : ∃ x, d.raw p = some x := by
  obtain ⟨b, hb, hlen⟩ := map_of_layout h
  unfold raw
  rw [hb]
  simp only
  exact ⟨b[p.offset], List.getElem?_eq_getElem (by omega)⟩

theorem layout_of_raw {d : Deque T} {p : Ptr} {x : Option T} (h : d.raw p = some x) :
    ∃ n, d.layout[p.bucket]? = some (some n) ∧ p.offset < n := by
  unfold raw at h
  cases h1 : d.map_[p.bucket]? with
  | none => simp [h1] at h
  | some ob =>
    cases ob with
    | none => simp [h1] at h
    | some b =>
      rw [h1] at h
      simp only at h
      refine ⟨b.length, ?_, ?_⟩
      · rw [layout_getElem?, h1]
        rfl
      · rcases List.getElem?_eq_some.mp h with ⟨hlt, _⟩
        exact hlt

theorem construct_raw {d d1 : Deque T} {p : Ptr} {v : T} (h : d.construct p v = some d1)
    (q : Ptr) : d1.raw q = if q = p then some (some v) else d.raw q := by
  unfold construct at h
  cases h1 : d.map_[p.bucket]? with
  | none => simp [h1] at h
  | some ob =>
    cases ob with
    | none => simp [h1] at h
    | some b =>
      rw [h1] at h
      simp only at h
      split at h
      · next hoff =>
        injection h with h
        subst h
        have hlt : p.bucket < d.map_.length := by
          rcases List.getElem?_eq_some.mp h1 with ⟨hlt, _⟩
          exact hlt
        unfold raw
        simp only
        rw [List.getElem?_set]
        by_cases hb : p.bucket = q.bucket
        · rw [if_pos hb, if_pos hlt]
          simp only
          rw [List.getElem?_set]
          by_cases ho : p.offset = q.offset
          · have hq : q = p := by
              cases p
              cases q
              simp_all
            rw [if_pos ho, if_pos hoff, if_pos hq]
          · have hq : ¬ q = p := by
              intro hqp
              rw [hqp] at ho
              exact ho rfl
            rw [if_neg ho, if_neg hq, ← hb, h1]
        · have hq : ¬ q = p := by
            intro hqp
            rw [hqp] at hb
            exact hb rfl
          rw [if_neg hb, if_neg hq]
      · cases h

theorem destroy_raw (d : Deque T) (p q : Ptr) :
    (d.destroy p).raw q = if q = p ∧ (d.raw p).isSome then some none else d.raw q := by
  unfold destroy
  cases h1 : d.map_[p.bucket]? with
  | none =>
    have : d.raw p = none := by
      unfold raw
      rw [h1]
    simp [this]
  | some ob =>
    cases ob with
    | none =>
      have : d.raw p = none := by
        unfold raw
        rw [h1]
      simp [this]
    | some b =>
      have hlt : p.bucket < d.map_.length := by
        rcases List.getElem?_eq_some.mp h1 with ⟨hlt, _⟩
        exact hlt
      have hrp : d.raw p = b[p.offset]? := by
        unfold raw
        rw [h1]
      simp only
      unfold raw
      simp only
      rw [List.getElem?_set]
      by_cases hb : p.bucket = q.bucket
      · rw [if_pos hb, if_pos hlt]
        simp only
        rw [List.getElem?_set]
        by_cases ho : p.offset = q.offset
        · have hq : q = p := by
            cases p
            cases q
            simp_all
          rw [if_pos ho]
          subst hq
          rw [h1]
          simp only
          by_cases hoff : q.offset < b.length
          · have hsome : (b[q.offset]?).isSome = true := by
              rw [List.getElem?_eq_getElem hoff]
              rfl
            simp [hoff, hsome]
          · rw [if_neg hoff]
            have hn : b[q.offset]? = none := List.getElem?_eq_none (by omega)
            rw [hn]
            simp
        · have hq : ¬ q = p := by
            intro hqp
            rw [hqp] at ho
            exact ho rfl
          rw [if_neg ho, ← hb, h1]
          simp [hq]
      · have hq : ¬ q = p := by
          intro hqp
          rw [hqp] at hb
          exact hb rfl
        rw [if_neg hb]
        simp [hq]

theorem ptr_flat_inj {f g : Nat} : (⟨g / 16, g % 16⟩ : Ptr) = ⟨f / 16, f % 16⟩ ↔ g = f := by
  constructor
  · intro h
    injection h with h1 h2
    omega
  · intro h
    rw [h]

/-- Constructing into an existing slot, given by its flat index, changes that
slot only and keeps the bucket layout and the cursors. -/
theorem construct_cell {d : Deque T} {f : Nat} (v : T)
    (h : ∃ x, d.cell f = some x) :
    ∃ d1, d.construct ⟨f / 16, f % 16⟩ v = some d1 ∧ d1.layout = d.layout ∧
      d1.start_ = d.start_ ∧ d1.end_ = d.end_ ∧
      ∀ g, d1.cell g = if g = f then some (some v) else d.cell g := by
  obtain ⟨x, hx⟩ := h
  obtain ⟨n, hn, hoff⟩ := layout_of_raw hx
  obtain ⟨d1, h1, hl, hs, he⟩ := construct_spec v hn hoff
  refine ⟨d1, h1, hl, hs, he, ?_⟩
  intro g
  unfold cell
  rw [construct_raw h1]
  by_cases hg : g = f
  · rw [if_pos (ptr_flat_inj.mpr hg), if_pos hg]
  · rw [if_neg (fun hh => hg (ptr_flat_inj.mp hh)), if_neg hg]

theorem destroy_cell (d : Deque T) (f g : Nat) :
    (d.destroy ⟨f / 16, f % 16⟩).cell g
      = if g = f ∧ (d.cell f).isSome then some none else d.cell g := by
  unfold cell
  rw [destroy_raw]
  by_cases hg : g = f
  · subst hg
    simp
  · have : ¬ (⟨g / 16, g % 16⟩ : Ptr) = ⟨f / 16, f % 16⟩ := fun hh => hg (ptr_flat_inj.mp hh)
    simp [hg, this]

theorem slot_eq_cell (d : Deque T) (f : Nat) : d.slot f = (d.cell f).join := by
  unfold slot cell kBucketSize
  exact load_eq_raw d _

theorem elem_eq_cell {d : Deque T} {i : Nat} (h : d.start_ + i < 2147483648) :
    d.elem i = (d.cell (d.start_ + i)).join := by
  unfold elem operator_index
  rw [uadd_small (by omega), get_ptr_small h, load_eq_raw]
  rfl

end Deque

namespace Deque

theorem cell_allocated (len s e g : Nat) :
    (⟨List.replicate len (some allocate), s, e⟩ : Deque T).cell g
      = if g < 16 * len then some none else none := by
  unfold cell raw allocate kBucketSize
  simp only [List.getElem?_replicate]
  by_cases hg : g < 16 * len
  · have h1 : g / 16 < len := by omega
    have h2 : g % 16 < 16 := by omega
    rw [if_pos h1, if_pos hg]
    simp only [List.getElem?_replicate]
    rw [if_pos h2]
  · have h1 : ¬ g / 16 < len := by omega
    rw [if_neg h1, if_neg hg]

theorem layout_allocated (len s e : Nat) :
    (⟨List.replicate len (some allocate), s, e⟩ : Deque T).layout
      = List.replicate len (some 16) := by
  simp [layout, allocate, kBucketSize]

theorem inv_live {d : Deque T} (h : d.Inv) {f : Nat} (h1 : d.start_ ≤ f) (h2 : f < d.end_) :
    ∃ v, d.cell f = some (some v) := by
  have hl := h.2.2.2.2 f h2 h1
  rw [slot_eq_cell] at hl
  cases hc : d.cell f with
  | none => simp [hc] at hl
  | some x =>
    cases x with
    | none => simp [hc] at hl
    | some v => exact ⟨v, rfl⟩

theorem copy_loop_spec {other d0 : Deque T} (hinv : other.Inv)
    (hr : other.end_ ≤ 2147483648) (h0s : d0.start_ = other.start_)
    (h0 : ∀ g, g < other.end_ → ∃ x, d0.cell g = some x) :
    ∀ k, other.start_ + k ≤ other.end_ →
      ∃ dk, copy_loop other k d0 = some dk ∧ dk.layout = d0.layout ∧
        dk.start_ = d0.start_ ∧ dk.end_ = d0.end_ ∧
        ∀ g, dk.cell g = if other.start_ ≤ g ∧ g < other.start_ + k then other.cell g
                         else d0.cell g := by
  intro k
  induction k with
  | zero =>
    intro _
    refine ⟨d0, rfl, rfl, rfl, rfl, ?_⟩
    intro g
    rw [if_neg (by omega)]
  | succ k ih =>
    intro hk
    obtain ⟨dk, hdk, hl, hs, he, hcell⟩ := ih (by omega)
    obtain ⟨v, hv⟩ := inv_live hinv (f := other.start_ + k) (by omega) (by omega)
    have hidx : uadd dk.start_ k = other.start_ + k := by
      rw [hs, h0s]
      exact uadd_small (by omega)
    have hsub : usub (other.start_ + k) dk.start_ = k := by
      rw [hs, h0s, usub_small (by omega) (by omega)]
      omega
    have hread : other.elem k = some v := by
      rw [elem_eq_cell (by omega), hv]
      rfl
    have hdst : ∃ x, dk.cell (other.start_ + k) = some x := by
      rw [hcell, if_neg (by omega)]
      exact h0 _ (by omega)
    obtain ⟨d1, h1, hl1, hs1, he1, hcell1⟩ := construct_cell v hdst
    refine ⟨d1, ?_, by rw [hl1, hl], by rw [hs1, hs], by rw [he1, he], ?_⟩
    · simp only [copy_loop, hdk, Option.bind_some, Option.some_bind, hidx, hsub, hread]
      rw [get_ptr_small (by omega)]
      exact h1
    · intro g
      rw [hcell1 g, hcell g]
      by_cases hg : g = other.start_ + k
      · have hw : other.start_ ≤ g ∧ g < other.start_ + (k + 1) := by omega
        rw [if_pos hg, if_pos hw, hg, hv]
      · rw [if_neg hg]
        by_cases hw : other.start_ ≤ g ∧ g < other.start_ + k
        · have hw1 : other.start_ ≤ g ∧ g < other.start_ + (k + 1) := by omega
          rw [if_pos hw, if_pos hw1]
        · have hw1 : ¬ (other.start_ ≤ g ∧ g < other.start_ + (k + 1)) := by omega
          rw [if_neg hw, if_neg hw1]

end Deque

end Contents

/-! ## Copy construction -/

/-- C5. For a source deque that satisfies the container invariant (with flat
indices inside the `int` range of `get_ptr`), the copy constructor returns a
deque with the size of the source and, at every index below it, the element
of the source. Every entry of the map of the copy is a bucket of sixteen
slots that the constructor allocated itself: outside the flat range
`[start_, end_)`, into which it copied, all of its slots are still raw. -/
theorem C5_copy_is_elementwise_equal {T : Type} (src : Deque T) (hinv : src.Inv)
    (hr : src.end_ ≤ 2147483648) :
    ∃ c, src.copy = some c ∧ c.size = src.size ∧
      (∀ i, i < src.size → c.elem i = src.elem i) ∧ c.contents = src.contents ∧
      c.map_.length = src.map_.length ∧
      (∀ j, j < c.map_.length → ∃ b, c.map_[j]? = some (some b) ∧ b.length = 16 ∧
        ∀ o, o < 16 →
          (src.start_ ≤ 16 * j + o ∧ 16 * j + o < src.end_) ∨ b[o]? = some none) := by
  have hse : src.start_ ≤ src.end_ := hinv.1
  have hel : src.end_ ≤ 16 * src.map_.length := hinv.2.1
  have hsize : usub src.end_ src.start_ = src.end_ - src.start_ := usub_small hse (by omega)
  obtain ⟨c, hc, hl, hs, he, hcell⟩ := @Deque.copy_loop_spec T src
    ⟨List.replicate src.map_.length (some allocate), src.start_, src.end_⟩ hinv hr rfl
    (by
      intro g hg
      rw [Deque.cell_allocated, if_pos (by omega)]
      exact ⟨_, rfl⟩)
    (src.end_ - src.start_) (by omega)
  have hs' : c.start_ = src.start_ := hs
  have he' : c.end_ = src.end_ := he
  have hl' : c.layout = List.replicate src.map_.length (some 16) := by
    rw [hl, Deque.layout_allocated]
  have hlen : c.map_.length = src.map_.length := by
    rw [← Deque.layout_length, hl', List.length_replicate]
  have hsz : c.size = src.size := by
    unfold Deque.size
    rw [hs', he']
  have helem : ∀ i, i < src.size → c.elem i = src.elem i := by
    intro i hi
    have hi' : i < src.end_ - src.start_ := by
      unfold Deque.size at hi
      rw [hsize] at hi
      exact hi
    rw [Deque.elem_eq_cell (by omega), Deque.elem_eq_cell (by omega), hs', hcell,
      if_pos (by omega)]
  refine ⟨c, ?_, hsz, helem, ?_, hlen, ?_⟩
  · unfold Deque.copy
    rw [hsize]
    exact hc
  · unfold Deque.contents
    rw [hsz]
    apply List.map_congr_left
    intro i hi
    exact helem i (List.mem_range.mp hi)
  · intro j hj
    have hlj : c.layout[j]? = some (some 16) := by
      rw [hl', List.getElem?_replicate, if_pos (by omega)]
    obtain ⟨b, hb, hblen⟩ := Deque.map_of_layout hlj
    refine ⟨b, hb, hblen, ?_⟩
    intro o ho
    by_cases hw : src.start_ ≤ 16 * j + o ∧ 16 * j + o < src.end_
    · exact Or.inl hw
    · right
      have hc1 := hcell (16 * j + o)
      have hw' : ¬ (src.start_ ≤ 16 * j + o ∧ 16 * j + o < src.start_ + (src.end_ - src.start_)) := by
        omega
      rw [if_neg hw', Deque.cell_allocated, if_pos (by omega)] at hc1
      unfold Deque.cell Deque.raw at hc1
      have e1 : (16 * j + o) / 16 = j := by omega
      have e2 : (16 * j + o) % 16 = o := by omega
      rw [e1, e2, hb] at hc1
      exact hc1

/-- Witness for C5 on `Deque({1, 2, 3, 4})`. -/
theorem C5_copy_is_elementwise_equal_witness :
    sampleDeque.Inv ∧ sampleDeque.end_ ≤ 2147483648 ∧
    ∃ c, sampleDeque.copy = some c ∧ c.size = sampleDeque.size ∧
      (∀ i, i < sampleDeque.size → c.elem i = sampleDeque.elem i) ∧
      c.contents = sampleDeque.contents ∧
      c.map_.length = sampleDeque.map_.length ∧
      (∀ j, j < c.map_.length → ∃ b, c.map_[j]? = some (some b) ∧ b.length = 16 ∧
        ∀ o, o < 16 →
          (sampleDeque.start_ ≤ 16 * j + o ∧ 16 * j + o < sampleDeque.end_) ∨
            b[o]? = some none) :=
  ⟨by decide, by decide, C5_copy_is_elementwise_equal sampleDeque (by decide) (by decide)⟩

/-! ## Erasure -/

section Erase

variable {T : Type}

namespace Deque

theorem erase_loop_spec :
    ∀ (n : Nat) (d : Deque T) (idx : Nat), idx + n < 2147483648 →
      (∃ x, d.cell idx = some x) →
      (∀ f, idx < f → f ≤ idx + n → ∃ v, d.cell f = some (some v)) →
      ∃ d1, d.erase_loop idx n = some d1 ∧ d1.layout = d.layout ∧
        d1.start_ = d.start_ ∧ d1.end_ = d.end_ ∧
        ∀ g, d1.cell g = if idx ≤ g ∧ g < idx + n then d.cell (g + 1) else d.cell g := by
  intro n
  induction n with
  | zero =>
    intro d idx _ _ _
    refine ⟨d, rfl, rfl, rfl, rfl, ?_⟩
    intro g
    rw [if_neg (by omega)]
  | succ n ih =>
    intro d idx hb hdst hsrc
    obtain ⟨v, hv⟩ := hsrc (idx + 1) (by omega) (by omega)
    have hnext : uadd idx 1 = idx + 1 := uadd_small (by omega)
    have hread : d.load (get_ptr (idx + 1)) = some v := by
      rw [get_ptr_small (by omega), load_eq_raw]
      have : d.raw ⟨(idx + 1) / 16, (idx + 1) % 16⟩ = some (some v) := hv
      rw [this]
      rfl
    obtain ⟨d1, h1, hl1, hs1, he1, hcell1⟩ := construct_cell v hdst
    have hdst1 : ∃ x, d1.cell (idx + 1) = some x := by
      rw [hcell1, if_neg (by omega), hv]
      exact ⟨_, rfl⟩
    have hsrc1 : ∀ f, idx + 1 < f → f ≤ idx + 1 + n → ∃ v, d1.cell f = some (some v) := by
      intro f hf1 hf2
      rw [hcell1, if_neg (by omega)]
      exact hsrc f (by omega) (by omega)
    obtain ⟨d2, h2, hl2, hs2, he2, hcell2⟩ := ih d1 (idx + 1) (by omega) hdst1 hsrc1
    refine ⟨d2, ?_, by rw [hl2, hl1], by rw [hs2, hs1], by rw [he2, he1], ?_⟩
    · simp only [erase_loop, hnext, hread, Option.bind_some, Option.some_bind]
      rw [get_ptr_small (by omega), h1]
      exact h2
    · intro g
      rw [hcell2 g]
      by_cases hg : idx + 1 ≤ g ∧ g < idx + 1 + n
      · have hw : idx ≤ g ∧ g < idx + (n + 1) := by omega
        rw [if_pos hg, if_pos hw, hcell1, if_neg (by omega)]
      · rw [if_neg hg, hcell1]
        by_cases hgi : g = idx
        · have hw : idx ≤ g ∧ g < idx + (n + 1) := by omega
          rw [if_pos hgi, if_pos hw, hgi, hv]
        · have hw : ¬ (idx ≤ g ∧ g < idx + (n + 1)) := by omega
          rw [if_neg hgi, if_neg hw]

end Deque

end Erase

/-- C10. For a deque with ordered cursors whose `size()` elements are all
readable (flat indices inside the `int` range of `get_ptr`) and a position
`p < size()`, `erase(begin() + p)` returns with `size()` reduced by one; the
elements before `p` are unchanged, every later index `i` returns the former
element `i + 1`, and `start_` and the bucket layout of the map (which entries
are null, and the buckets of the others) are unchanged. -/
theorem C10_erase_removes_one_element {T : Type} (d : Deque T) (p : Nat)
    (hse : d.start_ ≤ d.end_) (hr : d.end_ ≤ 2147483648)
    (hc : ∀ i, i < d.size → (d.elem i).isSome = true) (hp : p < d.size) :
    ∃ d1, d.erase (uadd d.start_ p) = some d1 ∧ d1.size = d.size - 1 ∧
      (∀ i, i < p → d1.elem i = d.elem i) ∧
      (∀ i, p ≤ i → i < d.size - 1 → d1.elem i = d.elem (i + 1)) ∧
      d1.start_ = d.start_ ∧ d1.layout = d.layout := by
  have hsize : d.size = d.end_ - d.start_ := usub_small hse (by omega)
  rw [hsize] at hp hc ⊢
  have hlive : ∀ f, d.start_ ≤ f → f < d.end_ → ∃ v, d.cell f = some (some v) := by
    intro f hf1 hf2
    have h := hc (f - d.start_) (by omega)
    rw [Deque.elem_eq_cell (by omega)] at h
    have hf : d.start_ + (f - d.start_) = f := by omega
    rw [hf] at h
    cases hcf : d.cell f with
    | none => simp [hcf] at h
    | some x =>
      cases x with
      | none => simp [hcf] at h
      | some v => exact ⟨v, rfl⟩
  have hidx : uadd d.start_ p = d.start_ + p := uadd_small (by omega)
  have hptr : get_ptr (d.start_ + p) = ⟨(d.start_ + p) / 16, (d.start_ + p) % 16⟩ :=
    get_ptr_small (by omega)
  obtain ⟨hly, hst, hen⟩ := Deque.destroy_spec d ⟨(d.start_ + p) / 16, (d.start_ + p) % 16⟩
  have hcell0 := Deque.destroy_cell d (d.start_ + p)
  generalize hd0 : d.destroy ⟨(d.start_ + p) / 16, (d.start_ + p) % 16⟩ = d0
    at hly hst hen hcell0
  have hend0 : usub d0.end_ 1 = d.end_ - 1 := by
    rw [hen]
    exact usub_small (by omega) (by omega)
  have hcount : usub (usub d0.end_ 1) (d.start_ + p) = d.end_ - 1 - (d.start_ + p) := by
    rw [hend0]
    exact usub_small (by omega) (by omega)
  have hdst : ∃ x, d0.cell (d.start_ + p) = some x := by
    obtain ⟨v, hv⟩ := hlive (d.start_ + p) (by omega) (by omega)
    rw [hcell0, hv]
    simp
  have hsrc : ∀ f, d.start_ + p < f → f ≤ d.start_ + p + (d.end_ - 1 - (d.start_ + p)) →
      ∃ v, d0.cell f = some (some v) := by
    intro f hf1 hf2
    rw [hcell0, if_neg (by omega)]
    exact hlive f (by omega) (by omega)
  obtain ⟨d1, h1, hl1, hs1, he1, hcell1⟩ := Deque.erase_loop_spec
    (d.end_ - 1 - (d.start_ + p)) d0 (d.start_ + p) (by omega) hdst hsrc
  have hend : usub d1.end_ 1 = d.end_ - 1 := by
    rw [he1]
    exact hend0
  have hs1' : d1.start_ = d.start_ := by rw [hs1, hst]
  have hcellE : ∀ g, (⟨d1.map_, d1.start_, usub d1.end_ 1⟩ : Deque T).cell g = d1.cell g :=
    fun _ => rfl
  have helemE : ∀ i, d.start_ + i < 2147483648 →
      (⟨d1.map_, d1.start_, usub d1.end_ 1⟩ : Deque T).elem i = (d1.cell (d.start_ + i)).join := by
    intro i hi
    have h := Deque.elem_eq_cell (d := (⟨d1.map_, d1.start_, usub d1.end_ 1⟩ : Deque T)) (i := i)
      (by show d1.start_ + i < 2147483648; omega)
    rw [h, hcellE]
    show (d1.cell (d1.start_ + i)).join = _
    rw [hs1']
  refine ⟨⟨d1.map_, d1.start_, usub d1.end_ 1⟩, ?_, ?_, ?_, ?_, hs1', ?_⟩
  · unfold Deque.erase
    simp only [hidx, hptr, hd0, hcount, h1, Option.bind_some, Option.some_bind]
  · unfold Deque.size
    show usub (usub d1.end_ 1) d1.start_ = d.end_ - d.start_ - 1
    rw [hend, hs1', usub_small (by omega) (by omega)]
    omega
  · intro i hi
    rw [helemE i (by omega), Deque.elem_eq_cell (by omega), hcell1, if_neg (by omega),
      hcell0, if_neg (by omega)]
  · intro i hi1 hi2
    rw [helemE i (by omega), Deque.elem_eq_cell (by omega), hcell1, if_pos (by omega),
      hcell0, if_neg (by omega)]
    have : d.start_ + i + 1 = d.start_ + (i + 1) := by omega
    rw [this]
  · show d1.layout = d.layout
    rw [hl1, hly]

/-- Witness for C10: erasing position 1 of `Deque({1, 2, 3, 4})`. -/
theorem C10_erase_removes_one_element_witness :
    sampleDeque.start_ ≤ sampleDeque.end_ ∧ sampleDeque.end_ ≤ 2147483648 ∧
    (∀ i, i < sampleDeque.size → (sampleDeque.elem i).isSome = true) ∧ 1 < sampleDeque.size ∧
    ∃ d1, sampleDeque.erase (uadd sampleDeque.start_ 1) = some d1 ∧
      d1.size = sampleDeque.size - 1 ∧
      (∀ i, i < 1 → d1.elem i = sampleDeque.elem i) ∧
      (∀ i, 1 ≤ i → i < sampleDeque.size - 1 → d1.elem i = sampleDeque.elem (i + 1)) ∧
      d1.start_ = sampleDeque.start_ ∧ d1.layout = sampleDeque.layout :=
  ⟨by decide, by decide, by decide, by decide,
   C10_erase_removes_one_element sampleDeque 1 (by decide) (by decide) (by decide) (by decide)⟩

/-! ## Teardown and pops at concrete inputs -/

set_option maxRecDepth 100000 in
/-- C3 (fails in the code). After `push_back(1)`, `push_front(2)` on the empty
deque the cursors are `start_ = 31`, `end_ = 33` and the size is 2. `pop_back`
there meets `end_ % 16 == 1` and `pop_front` meets `start_ % 16 == 15`: each
hands the bucket index `end_ / 16 = 2` to `deallocate` in the place of a bucket
pointer and has no result. So the guarded sequence `mixedCalls`, three pushes
and two pops, does not run to a deque of size 1, and neither does
`push_back(1)`, `pop_back()` to an empty one. -/
theorem C3_pop_at_bucket_edge_has_no_result :
    Op.popsGuarded 0 mixedCalls = true ∧ Op.pushes mixedCalls - Op.pops mixedCalls = 1 ∧
    ((Op.run Deque.new [Op.push_back 1, Op.push_front 2]).map
      fun d => (d.start_, d.end_, d.size)) = some (31, 33, 2) ∧
    ((Op.run Deque.new [Op.push_back 1, Op.push_front 2]).bind Deque.pop_back) = none ∧
    ((Op.run Deque.new [Op.push_back 1, Op.push_front 2]).bind Deque.pop_front) = none ∧
    Op.run Deque.new mixedCalls = none ∧
    Op.popsGuarded 0 [Op.push_back 1, Op.pop_back] = true ∧
    Op.run Deque.new [Op.push_back 1, Op.pop_back] = none := by
  decide

set_option maxRecDepth 100000 in
/-- C13 (fails in the code). `Deque(17, 0)` holds its last element at flat
index 32, the only constructed slot of bucket 2: `pop_back` meets
`end_ % 16 == 1`, hands the index 2 and not the pointer `map_[2]` to
`deallocate`, and has no result. After `push_front(9)` on
`Deque({1, 2, 3, 4})` the element 9 at flat index 15 is the only constructed
slot of bucket 0: `pop_front` meets `start_ % 16 == 15` and hands
`end_ / 16 = 1`, the index of the bucket that holds the other four elements,
to `deallocate`. Away from those two offsets no release is attempted:
`Deque({7})` holds its only element at flat index 16 and map entry 1 is still
non-null after `pop_front`, and the deque left by three `pop_front` calls on
`Deque({1, 2, 3, 4})` holds its only element at flat index 19 and map entry 1
is still non-null after `pop_back`. -/
theorem C13_bucket_not_released :
    Deque.from_count 17 0 = some seventeenDeque ∧ seventeenDeque.Inv ∧
    seventeenDeque.start_ = 16 ∧ seventeenDeque.end_ = 33 ∧
    (seventeenDeque.constructed.filter fun f => f / 16 = 2) = [32] ∧
    seventeenDeque.end_ / kBucketSize = 2 ∧ seventeenDeque.pop_back = none ∧
    sampleDeque.push_front 9 = some frontSample ∧ frontSample.Inv ∧
    frontSample.start_ = 15 ∧ frontSample.end_ = 20 ∧
    (frontSample.constructed.filter fun f => f / 16 = 0) = [15] ∧
    frontSample.end_ / kBucketSize = 1 ∧ frontSample.pop_front = none ∧
    Deque.from_list [7] = some singleDeque ∧ singleDeque.Inv ∧
    singleDeque.start_ = 16 ∧ singleDeque.end_ = 17 ∧
    (singleDeque.pop_front.map fun d => (d.start_, d.end_, d.map_.map Option.isSome))
      = some (17, 17, [false, true, false, false]) ∧
    Op.run sampleDeque [Op.pop_front, Op.pop_front, Op.pop_front] = some lastDeque ∧
    lastDeque.Inv ∧ lastDeque.start_ = 19 ∧ lastDeque.end_ = 20 ∧
    (lastDeque.pop_back.map fun d => (d.start_, d.end_, d.map_.map Option.isSome))
      = some (19, 19, [false, true, false, false]) := by
  decide

set_option maxRecDepth 100000 in
/-- C14 (fails in the code). `Deque({1, 2, 3, 4})` has one allocated bucket
(map entry 1) holding four constructed elements, and three null entries.
`delete_map` makes 68 calls: 64 `destroy` calls, one for every slot address of
every entry, and 4 `deallocate` calls. Among them are `destroy` on slot 0 of
the null entry 0, `destroy` on the raw slot 4 of entry 1, and `deallocate` on
the null entry 0. -/
theorem C14_delete_map_touches_every_slot :
    sampleDeque.map_.map Option.isSome = [false, true, false, false] ∧
    sampleDeque.constructed = [16, 17, 18, 19] ∧
    sampleDeque.delete_map.length = 68 ∧
    (sampleDeque.delete_map.filter fun c => c matches Teardown.destroy _ _).length = 64 ∧
    Teardown.destroy 0 0 ∈ sampleDeque.delete_map ∧ sampleDeque.map_[0]? = some none ∧
    Teardown.destroy 1 4 ∈ sampleDeque.delete_map ∧ sampleDeque.raw ⟨1, 4⟩ = some none ∧
    Teardown.deallocate 0 ∈ sampleDeque.delete_map := by
  decide


set_option maxRecDepth 100000 in
/-- C16 (fails in the code). On `Deque({1, 2, 3, 4})` the constructed slots are
exactly the flat indices 16 .. 19. `pop_back` calls `destroy` on `&*end()`,
the raw slot 20, and then decrements `end_` to 19: slot 19 still holds the
element 4, outside `[start_, end_) = [16, 19)`. `pop_front`, which destroys
`&*begin()`, leaves exactly the slots 17 .. 19 constructed. -/
theorem C16_pop_back_destroys_past_the_end :
    Deque.from_list [1, 2, 3, 4] = some sampleDeque ∧
    sampleDeque.start_ = 16 ∧ sampleDeque.end_ = 20 ∧
    sampleDeque.constructed = [16, 17, 18, 19] ∧
    (sampleDeque.pop_back.map fun d => (d.start_, d.end_)) = some (16, 19) ∧
    sampleDeque.pop_back.map Deque.constructed = some [16, 17, 18, 19] ∧
    (sampleDeque.pop_back.bind fun d => d.slot 19) = some 4 ∧
    (sampleDeque.pop_front.map fun d => (d.start_, d.end_)) = some (17, 20) ∧
    sampleDeque.pop_front.map Deque.constructed = some [17, 18, 19] := by
  decide


/-! ## The first `push_back` -/

/-- `reserve(4)` on the default-constructed deque. -/
theorem Deque.new_reserve {T : Type} :
    (Deque.new : Deque T).reserve 4 = some ⟨[none, none, none, none], 32, 32⟩ := by
  have hs0 : (Deque.new : Deque T).start_ = 0 := rfl
  have he0 : (Deque.new : Deque T).end_ = 0 := rfl
  have hl0 : (Deque.new : Deque T).map_.length = 0 := rfl
  obtain ⟨d1, h, hlen, hs, he, hget⟩ := @Deque.reserve_spec T Deque.new 4 (Nat.le_refl _)
    (Nat.zero_le _) (by rw [hl0]; decide) (by decide)
  rw [h]
  rw [hs0, he0] at hs he hget
  have hs' : d1.start_ = 32 := hs
  have he' : d1.end_ = 32 := by
    rw [he, hs']
  have hm : d1.map_ = [none, none, none, none] := by
    apply List.ext_getElem?
    intro j
    rw [hget j]
    have hw : ¬ ((4 - ((0 + 15) / 16 - 0 / 16)) / 2 ≤ j ∧
        j < (4 - ((0 + 15) / 16 - 0 / 16)) / 2 + ((0 + 15) / 16 - 0 / 16)) := by omega
    rw [if_neg hw]
    match j with
    | 0 => rfl
    | 1 => rfl
    | 2 => rfl
    | 3 => rfl
    | j + 4 =>
      rw [if_neg (by omega)]
      rfl
  cases d1
  simp only at hs' he' hm
  rw [hs', he', hm]


/-- `push_back(v)` on the default-constructed deque. -/
theorem Deque.new_push_back {T : Type} (v : T) : (Deque.new : Deque T).push_back v
      = some ⟨[none, none, some (some v :: List.replicate 15 none), none], 32, 33⟩ := by
  have h : max kMinBucketNumber (umul 0 2) = 4 := by decide
  have h1 : uadd 32 1 / kBucketSize = 2 := by decide
  have h2 : get_ptr 32 = ⟨2, 0⟩ := by decide
  have h3 : uadd 32 1 = 33 := by decide
  have h4 : 32 % kBucketSize = 0 := by decide
  have h5 : (0 : Nat) ≥ umul kBucketSize 0 := by decide
  have hr := @Deque.new_reserve T
  unfold Deque.push_back Deque.capacity
  have hl : (Deque.new : Deque T).map_.length = 0 := rfl
  have h0 : (Deque.new : Deque T).end_ = 0 := rfl
  rw [hl, h0, if_pos h5, h, hr]
  simp only [Option.bind_some, Option.some_bind]
  rw [if_pos h4, h1]
  have hb : (⟨[none, none, none, none], 32, 32⟩ : Deque T).bucket_reserve 2
      = some ⟨[none, none, some allocate, none], 32, 32⟩ := rfl
  rw [hb]
  simp only [Option.bind_some, Option.some_bind, h2, h3]
  rfl

/-- The first `push_back`, for an allocator whose traits take the iterator
that line 441 hands to `construct`. On the default-constructed deque `reserve`
narrows `(end_ - 1) / 16 = (2 ^ 64 - 1) / 16` to the `int` -1, so the occupied
span is `-1 - 0 + 1 = 0` buckets and its copy loop does not run: `reserve(4)`
returns a map of four null entries with `start_ = end_ = 32` although the old
map has no entry to read. The rest of `push_back(v)` allocates bucket 2 only,
constructs `v` in its slot 0 and sets `end_ = 33`. -/
theorem Deque.first_push_back {T : Type} (v : T) :
    toInt (usub 0 1 / kBucketSize) = -1 ∧
    iwrap (iwrap (toInt (usub 0 1 / kBucketSize) - toInt (0 / kBucketSize)) + 1) = 0 ∧
    (Deque.new : Deque T).reserve 4 = some ⟨[none, none, none, none], 32, 32⟩ ∧
    (Deque.new : Deque T).push_back v
      = some ⟨[none, none, some (some v :: List.replicate 15 none), none], 32, 33⟩ ∧
    ((Deque.new : Deque T).push_back v).map Deque.size = some 1 ∧
    (((Deque.new : Deque T).push_back v).bind fun d => d.elem 0) = some v := by
  have hsz : usub 33 32 = 1 := by decide
  have hp : get_ptr (uadd 32 0) = ⟨2, 0⟩ := by decide
  refine ⟨by decide, by decide, Deque.new_reserve, Deque.new_push_back v, ?_, ?_⟩
  · rw [Deque.new_push_back]
    simp only [Option.map_some', Deque.size, hsz]
  · rw [Deque.new_push_back]
    simp only [Option.bind_some, Option.some_bind, Deque.elem, Deque.operator_index, hp]
    rfl

/-! ## Capacity for a count and the sized constructors -/

section Constructors

variable {T : Type}


namespace Deque

theorem pow2_search_spec (n : Nat) :
    ∀ fuel i, n ≤ 2 ^ (i + fuel) → (i = 0 ∨ 2 ^ (i - 1) < n) →
      ∃ e, pow2_search n fuel (2 ^ i) = 2 ^ e ∧ n ≤ 2 ^ e ∧ (e = 0 ∨ 2 ^ (e - 1) < n) := by
  intro fuel
  induction fuel with
  | zero =>
    intro i h1 h2
    exact ⟨i, rfl, h1, h2⟩
  | succ fuel ih =>
    intro i h1 h2
    unfold pow2_search
    by_cases hn : n ≤ 2 ^ i
    · rw [if_pos hn]
      exact ⟨i, rfl, hn, h2⟩
    · rw [if_neg hn]
      have hp : 2 * 2 ^ i = 2 ^ (i + 1) := by rw [pow_succ]; ring
      rw [hp]
      apply ih (i + 1)
      · have : i + 1 + fuel = i + (fuel + 1) := by omega
        rw [this]
        exact h1
      · right
        have : i + 1 - 1 = i := by omega
        rw [this]
        omega

/-- `pow2_ceil m` is the least power of two that is at least `m`, for
`1 ≤ m ≤ 2 ^ 48`. -/
theorem pow2_ceil_spec {m : Nat} (h1 : 1 ≤ m) (h2 : m ≤ 2 ^ 48) :
    ∃ e, pow2_ceil m = 2 ^ e ∧ m ≤ 2 ^ e ∧ (e = 0 ∨ 2 ^ (e - 1) < m) := by
  unfold pow2_ceil
  rw [if_neg (by omega)]
  have := pow2_search_spec m 48 0 (by simpa using h2) (Or.inl rfl)
  simpa using this

theorem pow2_ceil_bounds {m : Nat} (h1 : 1 ≤ m) (h2 : m ≤ 2 ^ 48) :
    m ≤ pow2_ceil m ∧ pow2_ceil m < 2 * m ∧ (pow2_ceil m = 1 ∨ pow2_ceil m % 2 = 0) := by
  obtain ⟨e, he, hle, hlt⟩ := pow2_ceil_spec h1 h2
  rw [he]
  rcases hlt with h0 | hlt
  · subst h0
    simp
    omega
  · have hpos : 1 ≤ e := by
      by_contra hc
      have : e = 0 := by omega
      subst this
      simp at hlt
      omega
    have hp : 2 ^ e = 2 * 2 ^ (e - 1) := by
      have : e = (e - 1) + 1 := by omega
      rw [this, pow_succ]
      simp
      ring
    refine ⟨hle, by omega, Or.inr (by omega)⟩

theorem count_bucket_capacity_bounds {n : Nat} (h : n ≤ 536870912) :
    4 ≤ count_bucket_capacity n ∧ count_bucket_capacity n % 4 = 0 ∧
    2 * ((n + 15) / 16) ≤ count_bucket_capacity n ∧
    count_bucket_capacity n ≤ 4 * ((n + 15) / 16) + 4 ∧
    count_bucket_capacity n = max 4 (2 * pow2_ceil ((n + 15) / 16)) := by
  have hm : usub (uadd n kBucketSize) 1 / kBucketSize = (n + 15) / 16 := by
    unfold kBucketSize
    rw [uadd_small (by omega), usub_small (by omega) (by omega)]
    rfl
  unfold count_bucket_capacity kMinBucketNumber
  rw [hm]
  by_cases h0 : (n + 15) / 16 = 0
  · rw [h0]
    have : pow2_ceil 0 = 0 := rfl
    rw [this]
    have : umul 0 2 = 0 := rfl
    rw [this]
    simp
  · obtain ⟨b1, b2, b3⟩ := pow2_ceil_bounds (m := (n + 15) / 16) (by omega)
      (by
        have : (2:Nat) ^ 48 = 281474976710656 := by norm_num
        omega)
    rw [umul_small (by omega)]
    omega

theorem allocate_loop_spec (lo : Nat) (m0 : List (Option (Bucket T))) :
    ∀ n, lo + n ≤ m0.length →
      ∃ m, allocate_loop lo n m0 = some m ∧ m.length = m0.length ∧
        ∀ j, m[j]? = if lo ≤ j ∧ j < lo + n then some (some allocate) else m0[j]? := by
  intro n
  induction n with
  | zero =>
    intro _
    refine ⟨m0, rfl, rfl, ?_⟩
    intro j
    rw [if_neg (by omega)]
  | succ n ih =>
    intro h
    obtain ⟨m, hm, hlen, hget⟩ := ih (by omega)
    refine ⟨m.set (lo + n) (some allocate), ?_, by rw [List.length_set, hlen], ?_⟩
    · simp only [allocate_loop, hm, Option.bind_some, Option.some_bind]
      rw [if_pos (by omega)]
    · intro j
      rw [List.getElem?_set]
      by_cases hj : lo + n = j
      · have hw : lo ≤ j ∧ j < lo + (n + 1) := by omega
        rw [if_pos hj, if_pos (by omega), if_pos hw]
      · rw [if_neg hj, hget j]
        by_cases hw : lo ≤ j ∧ j < lo + n
        · have hw1 : lo ≤ j ∧ j < lo + (n + 1) := by omega
          rw [if_pos hw, if_pos hw1]
        · have hw1 : ¬ (lo ≤ j ∧ j < lo + (n + 1)) := by omega
          rw [if_neg hw, if_neg hw1]

theorem construct_loop_spec :
    ∀ (l : List T) (d : Deque T) (idx : Nat), idx + l.length ≤ 2147483648 →
      (∀ g, idx ≤ g → g < idx + l.length → ∃ x, d.cell g = some x) →
      ∃ d1, d.construct_loop idx l = some d1 ∧ d1.layout = d.layout ∧
        d1.start_ = d.start_ ∧ d1.end_ = d.end_ ∧
        ∀ g, d1.cell g = if idx ≤ g ∧ g < idx + l.length then some (l[g - idx]?)
                         else d.cell g := by
  intro l
  induction l with
  | nil =>
    intro d idx _ _
    refine ⟨d, rfl, rfl, rfl, rfl, ?_⟩
    intro g
    rw [if_neg (by simp)]
  | cons x xs ih =>
    intro d idx hb hc
    have hlen : (x :: xs).length = xs.length + 1 := rfl
    rw [hlen] at hb hc
    obtain ⟨d1, h1, hl1, hs1, he1, hcell1⟩ := construct_cell x (hc idx (by omega) (by omega))
    have hc1 : ∀ g, idx + 1 ≤ g → g < idx + 1 + xs.length → ∃ y, d1.cell g = some y := by
      intro g hg1 hg2
      rw [hcell1, if_neg (by omega)]
      exact hc g (by omega) (by omega)
    obtain ⟨d2, h2, hl2, hs2, he2, hcell2⟩ := ih d1 (idx + 1) (by omega) hc1
    refine ⟨d2, ?_, by rw [hl2, hl1], by rw [hs2, hs1], by rw [he2, he1], ?_⟩
    · simp only [construct_loop]
      rw [get_ptr_small (by omega), h1]
      simp only [Option.bind_some, Option.some_bind]
      rw [uadd_small (by omega)]
      exact h2
    · intro g
      rw [hcell2 g, hlen]
      by_cases hg : idx + 1 ≤ g ∧ g < idx + 1 + xs.length
      · have hw : idx ≤ g ∧ g < idx + (xs.length + 1) := by omega
        rw [if_pos hg, if_pos hw]
        have : g - idx = (g - (idx + 1)) + 1 := by omega
        rw [this, List.getElem?_cons_succ]
      · rw [if_neg hg, hcell1]
        by_cases hgi : g = idx
        · have hw : idx ≤ g ∧ g < idx + (xs.length + 1) := by omega
          rw [if_pos hgi, if_pos hw, hgi]
          simp
        · have hw : ¬ (idx ≤ g ∧ g < idx + (xs.length + 1)) := by omega
          rw [if_neg hgi, if_neg hw]

theorem cell_of_map {d : Deque T} {g : Nat} {b : Bucket T}
    (h : d.map_[g / 16]? = some (some b)) : d.cell g = b[g % 16]? := by
  unfold cell raw
  simp only [h]

theorem cell_of_null {d : Deque T} {g : Nat} (h : d.map_[g / 16]? = some none ∨
    d.map_[g / 16]? = none) : d.cell g = none := by
  unfold cell raw
  rcases h with h | h <;> simp only [h]

/-- State built by the initializer-list constructor. -/
theorem from_list_spec (l : List T) (h : l.length ≤ 536870912) :
    ∃ d, from_list l = some d ∧
      d.map_.length = count_bucket_capacity l.length ∧
      d.start_ = 16 * (count_bucket_capacity l.length / 4) ∧
      d.end_ = d.start_ + l.length ∧
      (∀ j, d.layout[j]? =
        if count_bucket_capacity l.length / 4 ≤ j ∧
            j < count_bucket_capacity l.length / 4 + (l.length + 15) / 16
        then some (some 16)
        else if j < count_bucket_capacity l.length then some none else none) ∧
      (∀ g, d.cell g =
        if d.start_ ≤ g ∧ g < d.start_ + l.length then some (l[g - d.start_]?)
        else if d.start_ ≤ g ∧ g < d.start_ + 16 * ((l.length + 15) / 16) then some none
        else none) := by
  obtain ⟨c1, c2, c3, c4, _⟩ := count_bucket_capacity_bounds h
  generalize hcap : count_bucket_capacity l.length = cap at c1 c2 c3 c4
  have hstart : get_initial_start cap = 16 * (cap / 4) := by
    unfold get_initial_start kBucketSize
    rw [umul_small (by omega)]
    omega
  have hend : uadd (16 * (cap / 4)) l.length = 16 * (cap / 4) + l.length :=
    uadd_small (by omega)
  have hcnt : usub (16 * (cap / 4) + l.length) 1 / kBucketSize + 1
      - cap / 4 = (l.length + 15) / 16 := by
    unfold kBucketSize
    rw [usub_small (by omega) (by omega)]
    omega
  have hlo : 16 * (cap / 4) / kBucketSize = cap / 4 := by
    unfold kBucketSize
    omega
  obtain ⟨m, hm, hmlen, hmget⟩ := allocate_loop_spec (cap / 4)
    (List.replicate cap (none : Option (Bucket T))) ((l.length + 15) / 16)
    (by rw [List.length_replicate]; omega)
  rw [List.length_replicate] at hmlen
  have hcell0 : ∀ g, (⟨m, 16 * (cap / 4), 16 * (cap / 4) + l.length⟩ : Deque T).cell g =
      if 16 * (cap / 4) ≤ g ∧ g < 16 * (cap / 4) + 16 * ((l.length + 15) / 16) then some none
      else none := by
    intro g
    by_cases hg : 16 * (cap / 4) ≤ g ∧ g < 16 * (cap / 4) + 16 * ((l.length + 15) / 16)
    · rw [if_pos hg]
      have hw : cap / 4 ≤ g / 16 ∧ g / 16 < cap / 4 + (l.length + 15) / 16 := by omega
      have hb : m[g / 16]? = some (some allocate) := by rw [hmget, if_pos hw]
      rw [cell_of_map (d := ⟨m, 16 * (cap / 4), 16 * (cap / 4) + l.length⟩) hb]
      unfold allocate kBucketSize
      rw [List.getElem?_replicate, if_pos (by omega)]
    · rw [if_neg hg]
      have hw : ¬ (cap / 4 ≤ g / 16 ∧ g / 16 < cap / 4 + (l.length + 15) / 16) := by omega
      apply cell_of_null
      show m[g / 16]? = some none ∨ m[g / 16]? = none
      rw [hmget, if_neg hw, List.getElem?_replicate]
      by_cases hlt : g / 16 < cap
      · left
        rw [if_pos hlt]
      · right
        rw [if_neg hlt]
  obtain ⟨d1, h1, hl1, hs1, he1, hcell1⟩ := construct_loop_spec l
    ⟨m, 16 * (cap / 4), 16 * (cap / 4) + l.length⟩ (16 * (cap / 4)) (by omega)
    (by
      intro g hg1 hg2
      rw [hcell0, if_pos (by omega)]
      exact ⟨_, rfl⟩)
  have hs1' : d1.start_ = 16 * (cap / 4) := hs1
  have he1' : d1.end_ = 16 * (cap / 4) + l.length := he1
  refine ⟨d1, ?_, ?_, hs1', by rw [he1', hs1'], ?_, ?_⟩
  · unfold from_list
    simp only [hcap, hstart, hend, hcnt, hlo, hm, Option.bind_some, Option.some_bind]
    exact h1
  · rw [← layout_length, hl1, layout_length]
    exact hmlen
  · intro j
    rw [hl1, layout_getElem?]
    show Option.map (Option.map List.length) m[j]? = _
    rw [hmget j]
    by_cases hw : cap / 4 ≤ j ∧ j < cap / 4 + (l.length + 15) / 16
    · rw [if_pos hw, if_pos hw]
      rfl
    · rw [if_neg hw, if_neg hw, List.getElem?_replicate]
      by_cases hlt : j < cap
      · rw [if_pos hlt, if_pos hlt]
        rfl
      · rw [if_neg hlt, if_neg hlt]
        rfl
  · intro g
    rw [hcell1 g, hs1', hcell0 g]

theorem from_count_eq (count : Nat) (value : T) :
    from_count count value = from_list (List.replicate count value) := by
  unfold from_count from_list
  rw [List.length_replicate]

end Deque

end Constructors

/-- C20. For an element count `n` (up to `2 ^ 29`, so that every flat index
fits the `int` of `get_ptr`), `count_bucket_capacity n` is `max 4 (2 * P)`
with `P` the least power of two that is at least `ceil(n / 16)`, and both the
initializer-list constructor on a list of `n` values and the sized constructor
on `n` copies of a value return a deque whose map has `cap` entries, with
`start_ = (cap / 4) * 16`, `end_ = start_ + n` and `end_ ≤ 16 * cap`; every
entry from `start_ / 16` to `(end_ - 1) / 16` is inside the map and holds a
bucket of sixteen slots, every other entry is null, and entry `0` before the
window and entry `cap - 1` after it are such null entries. -/
theorem C20_constructor_window {T : Type} (init : List T) (value : T)
    (hn : init.length ≤ 536870912) :
    (∃ e, (init.length + 15) / 16 ≤ 2 ^ e ∧ (e = 0 ∨ 2 ^ (e - 1) < (init.length + 15) / 16) ∧
      Deque.count_bucket_capacity init.length = max 4 (2 * 2 ^ e)) ∧
    ∃ d c, Deque.from_list init = some d ∧ Deque.from_count init.length value = some c ∧
      ∀ r, r = d ∨ r = c →
        r.map_.length = Deque.count_bucket_capacity init.length ∧
        r.start_ = Deque.count_bucket_capacity init.length / 4 * 16 ∧
        r.end_ = r.start_ + init.length ∧
        r.end_ ≤ 16 * Deque.count_bucket_capacity init.length ∧
        (∀ j, r.start_ / 16 ≤ j → j ≤ (r.end_ - 1) / 16 →
          j < r.map_.length ∧ r.layout[j]? = some (some 16)) ∧
        (∀ j, j < r.map_.length → j < r.start_ / 16 ∨ (r.end_ - 1) / 16 < j →
          r.layout[j]? = some none) ∧
        0 < r.start_ / 16 ∧ (r.end_ - 1) / 16 < r.map_.length - 1 := by
  have hwin : ∀ (l : List T) (r : Deque T), l.length = init.length →
      Deque.from_list l = some r →
        r.map_.length = Deque.count_bucket_capacity init.length ∧
        r.start_ = Deque.count_bucket_capacity init.length / 4 * 16 ∧
        r.end_ = r.start_ + init.length ∧
        r.end_ ≤ 16 * Deque.count_bucket_capacity init.length ∧
        (∀ j, r.start_ / 16 ≤ j → j ≤ (r.end_ - 1) / 16 →
          j < r.map_.length ∧ r.layout[j]? = some (some 16)) ∧
        (∀ j, j < r.map_.length → j < r.start_ / 16 ∨ (r.end_ - 1) / 16 < j →
          r.layout[j]? = some none) ∧
        0 < r.start_ / 16 ∧ (r.end_ - 1) / 16 < r.map_.length - 1 := by
    intro l r hl hr
    obtain ⟨d, hd, hlen, hs, he, hlay, _⟩ := Deque.from_list_spec l (by omega)
    rw [hd] at hr
    cases hr
    rw [hl] at hlen hs he hlay
    obtain ⟨c1, c2, c3, c4, _⟩ := Deque.count_bucket_capacity_bounds hn
    generalize Deque.count_bucket_capacity init.length = cap at hlen hs he hlay c1 c2 c3 c4
    refine ⟨hlen, by omega, he, by omega, ?_, ?_, by omega, by omega⟩
    · intro j h1 h2
      refine ⟨by omega, ?_⟩
      have hw : cap / 4 ≤ j ∧ j < cap / 4 + (init.length + 15) / 16 := by omega
      rw [hlay j, if_pos hw]
    · intro j h1 h2
      have hw : ¬ (cap / 4 ≤ j ∧ j < cap / 4 + (init.length + 15) / 16) := by omega
      rw [hlay j, if_neg hw, if_pos (by omega)]
  constructor
  · obtain ⟨_, _, _, _, c5⟩ := Deque.count_bucket_capacity_bounds hn
    by_cases h0 : (init.length + 15) / 16 = 0
    · refine ⟨0, by omega, Or.inl rfl, ?_⟩
      rw [c5, h0]
      rfl
    · obtain ⟨e, he, h1, h2⟩ := Deque.pow2_ceil_spec (m := (init.length + 15) / 16) (by omega)
        (by have : (2:Nat) ^ 48 = 281474976710656 := by norm_num
            omega)
      exact ⟨e, h1, h2, by rw [c5, he]⟩
  · obtain ⟨d, hd, _⟩ := Deque.from_list_spec init hn
    obtain ⟨c, hc, _⟩ := Deque.from_list_spec (List.replicate init.length value)
      (by rw [List.length_replicate]; exact hn)
    refine ⟨d, c, hd, by rw [Deque.from_count_eq]; exact hc, ?_⟩
    intro r hr
    rcases hr with hr | hr
    · subst hr
      exact hwin init r rfl hd
    · subst hr
      exact hwin (List.replicate init.length value) r (by rw [List.length_replicate]) hc

/-- Witness for C20 on the list `[1, 2, 3, 4]` and the value `0`. -/
theorem C20_constructor_window_witness :
    [1, 2, 3, 4].length ≤ 536870912 ∧
    ∃ d c, Deque.from_list [1, 2, 3, 4] = some d ∧ Deque.from_count 4 0 = some c ∧
      ∀ r, r = d ∨ r = c →
        r.map_.length = Deque.count_bucket_capacity 4 ∧
        r.start_ = Deque.count_bucket_capacity 4 / 4 * 16 ∧
        r.end_ = r.start_ + 4 ∧
        r.end_ ≤ 16 * Deque.count_bucket_capacity 4 ∧
        (∀ j, r.start_ / 16 ≤ j → j ≤ (r.end_ - 1) / 16 →
          j < r.map_.length ∧ r.layout[j]? = some (some 16)) ∧
        (∀ j, j < r.map_.length → j < r.start_ / 16 ∨ (r.end_ - 1) / 16 < j →
          r.layout[j]? = some none) ∧
        0 < r.start_ / 16 ∧ (r.end_ - 1) / 16 < r.map_.length - 1 :=
  ⟨by decide, (C20_constructor_window [1, 2, 3, 4] 0 (by decide)).2⟩

/-! ## Iterator walks over a constructed deque -/

section Walks

variable {T : Type}

namespace Deque

theorem deref_eq_cell (d : Deque T) {g : Nat} (h : g < 2147483648) :
    d.deref ⟨g⟩ = (d.cell g).join := by
  unfold deref
  rw [get_ptr_small h, load_eq_raw]
  rfl

theorem walk_spec {d : Deque T} {l : List T} (he : d.end_ = d.start_ + l.length)
    (hr : d.end_ ≤ 2147483648)
    (hc : ∀ g, d.start_ ≤ g → g < d.end_ → d.cell g = some (l[g - d.start_]?)) :
    ∀ fuel k, k ≤ l.length → l.length - k < fuel →
      d.walk fuel ⟨d.start_ + k⟩ = some ((l.drop k).map some) := by
  intro fuel
  induction fuel with
  | zero => intro k _ h; omega
  | succ fuel ih =>
    intro k hk hf
    unfold walk
    by_cases hend : k = l.length
    · have h1 : (⟨d.start_ + k⟩ : Iterator) = d.end_iterator := by
        unfold end_iterator
        rw [he, hend]
      rw [if_pos h1, hend, List.drop_length]
      rfl
    · have h1 : (⟨d.start_ + k⟩ : Iterator) ≠ d.end_iterator := by
        unfold end_iterator
        intro h
        injection h with h
        omega
      have hlt : k < l.length := by omega
      have hinc : (⟨d.start_ + k⟩ : Iterator).inc = ⟨d.start_ + (k + 1)⟩ := by
        unfold Iterator.inc
        simp only
        rw [uadd_small (by omega)]
        rfl
      rw [if_neg h1, hinc, ih (k + 1) (by omega) (by omega),
        deref_eq_cell d (by omega), hc _ (by omega) (by omega)]
      have hk' : d.start_ + k - d.start_ = k := by omega
      rw [hk', List.getElem?_eq_getElem hlt, List.drop_eq_getElem_cons hlt]
      rfl

theorem rwalk_spec {d : Deque T} {l : List T} (he : d.end_ = d.start_ + l.length)
    (hr : d.end_ ≤ 2147483648)
    (hc : ∀ g, d.start_ ≤ g → g < d.end_ → d.cell g = some (l[g - d.start_]?)) :
    ∀ fuel k, k ≤ l.length → k < fuel →
      d.rwalk fuel ⟨d.start_ + k⟩ = some (((l.take k).reverse).map some) := by
  intro fuel
  induction fuel with
  | zero => intro k _ h; omega
  | succ fuel ih =>
    intro k hk hf
    unfold rwalk
    cases k with
    | zero =>
      have h1 : (⟨d.start_ + 0⟩ : Iterator) = d.begin := rfl
      rw [if_pos h1]
      rfl
    | succ k =>
      have h1 : (⟨d.start_ + (k + 1)⟩ : Iterator) ≠ d.begin := by
        unfold begin
        intro h
        injection h with h
        omega
      have hlt : k < l.length := by omega
      have hdec : (⟨d.start_ + (k + 1)⟩ : Iterator).dec = ⟨d.start_ + k⟩ := by
        unfold Iterator.dec
        simp only
        rw [usub_small (by omega) (by omega)]
        congr 1
      rw [if_neg h1, hdec, ih k (by omega) (by omega),
        deref_eq_cell d (by omega), hc _ (by omega) (by omega)]
      have hk' : d.start_ + k - d.start_ = k := by omega
      have ht : (l.take (k + 1)).reverse = l[k] :: (l.take k).reverse := by
        rw [List.take_succ, List.getElem?_eq_getElem hlt]
        simp
      rw [hk', List.getElem?_eq_getElem hlt, ht]
      rfl

end Deque

end Walks

/-- C12. For an initializer list `init` of `n` values (up to `2 ^ 29`, so that
every flat index fits the `int` of `get_ptr`), `Deque(init)` is built, has
size `n`, the loop from `begin()` to `end()` with `++` ends after visiting
exactly `n` positions and reads the values of `init` in order, and the loop
from `rbegin()` to `rend()` ends after `n` positions and reads them in
reverse order. -/
theorem C12_list_round_trip {T : Type} (init : List T) (hn : init.length ≤ 536870912) :
    ∃ d, Deque.from_list init = some d ∧ d.size = init.length ∧
      ∀ fuel, init.length < fuel →
        d.walk fuel d.begin = some (init.map some) ∧
        ((d.walk fuel d.begin).map List.length) = some init.length ∧
        d.rwalk fuel d.end_iterator = some (init.reverse.map some) ∧
        ((d.rwalk fuel d.end_iterator).map List.length) = some init.length := by
  obtain ⟨d, hd, hlen, hs, he, _, hcell⟩ := Deque.from_list_spec init hn
  obtain ⟨c1, c2, c3, c4, _⟩ := Deque.count_bucket_capacity_bounds hn
  have hr : d.end_ ≤ 2147483648 := by omega
  have hc : ∀ g, d.start_ ≤ g → g < d.end_ → d.cell g = some (init[g - d.start_]?) := by
    intro g h1 h2
    rw [hcell g, if_pos (by omega)]
  have hw : ∀ fuel, init.length < fuel → d.walk fuel d.begin = some (init.map some) := by
    intro fuel hf
    have := Deque.walk_spec he hr hc fuel 0 (by omega) (by omega)
    exact this
  have hrw : ∀ fuel, init.length < fuel →
      d.rwalk fuel d.end_iterator = some (init.reverse.map some) := by
    intro fuel hf
    have := Deque.rwalk_spec he hr hc fuel init.length (by omega) hf
    rw [List.take_length] at this
    unfold Deque.end_iterator
    rw [he]
    exact this
  refine ⟨d, hd, ?_, ?_⟩
  · unfold Deque.size
    rw [usub_small (by omega) (by omega)]
    omega
  · intro fuel hf
    rw [hw fuel hf, hrw fuel hf]
    simp

/-- Witness for C12 on the list `[1, 2, 3]`. -/
theorem C12_list_round_trip_witness :
    [1, 2, 3].length ≤ 536870912 ∧
    ∃ d, Deque.from_list [1, 2, 3] = some d ∧ d.size = 3 ∧
      ∀ fuel, 3 < fuel →
        d.walk fuel d.begin = some [some 1, some 2, some 3] ∧
        ((d.walk fuel d.begin).map List.length) = some 3 ∧
        d.rwalk fuel d.end_iterator = some [some 3, some 2, some 1] ∧
        ((d.rwalk fuel d.end_iterator).map List.length) = some 3 :=
  ⟨by decide, C12_list_round_trip [1, 2, 3] (by decide)⟩

/-! ## One element added at an end -/

section Ends

variable {T : Type}

namespace Deque

theorem shape_of_inv {d : Deque T} (h : d.Inv) : d.Shape := by
  obtain ⟨hse, hel, hb, hocc, _⟩ := h
  unfold kBucketSize at hel hb hocc
  have h16 : ∀ (j n : Nat), d.layout[j]? = some (some n) → n = 16 := by
    intro j n hj
    obtain ⟨b, hm, hlen⟩ := map_of_layout hj
    have hmem : some b ∈ d.map_ := List.getElem?_mem hm
    rw [← hlen]
    exact hb (some b) hmem b rfl
  refine ⟨hse, hel, h16, ?_⟩
  intro j hj1 hj2
  have hj : j < d.map_.length := by omega
  have := hocc j hj hj1 hj2
  cases hm : d.map_[j]? with
  | none => simp [hm] at this
  | some ob =>
    cases ob with
    | none => simp [hm] at this
    | some b =>
      have hl : d.layout[j]? = some (some b.length) := by
        rw [layout_getElem?, hm]
        rfl
      rw [hl, h16 j b.length hl]

theorem cell_congr {d d1 : Deque T} {g g1 : Nat} (hm : d1.map_[g1 / 16]? = d.map_[g / 16]?)
    (ho : g1 % 16 = g % 16) : d1.cell g1 = d.cell g := by
  unfold cell raw
  simp only [hm, ho]

theorem bucket_reserve_inv {d d2 : Deque T} {j : Nat} (h : d.bucket_reserve j = some d2) :
    d2.start_ = d.start_ ∧ d2.end_ = d.end_ ∧
      ∀ g x, d.cell g = some x → d2.cell g = some x := by
  unfold bucket_reserve at h
  cases hm : d.map_[j]? with
  | none => simp [hm] at h
  | some ob =>
    cases ob with
    | none =>
      simp only [hm] at h
      cases h
      refine ⟨rfl, rfl, ?_⟩
      intro g x hx
      by_cases hg : g / 16 = j
      · unfold cell raw at hx
        simp only [hg, hm] at hx
        cases hx
      · rw [← hx]
        apply cell_congr _ rfl
        show (d.map_.set j (some allocate))[g / 16]? = d.map_[g / 16]?
        rw [List.getElem?_set_ne (Ne.symm hg)]
    | some b =>
      simp only [hm] at h
      cases h
      exact ⟨rfl, rfl, fun _ _ hx => hx⟩

theorem construct_inv {d d1 : Deque T} {p : Ptr} {v : T} (h : d.construct p v = some d1) :
    d1.layout = d.layout ∧ d1.start_ = d.start_ ∧ d1.end_ = d.end_ := by
  have h0 := h
  unfold construct at h
  cases hm : d.map_[p.bucket]? with
  | none => simp [hm] at h
  | some ob =>
    cases ob with
    | none => simp [hm] at h
    | some b =>
      simp only [hm] at h
      by_cases ho : p.offset < b.length
      · have hl : d.layout[p.bucket]? = some (some b.length) := by
          rw [layout_getElem?, hm]
          rfl
        obtain ⟨d1', h1', rest⟩ := construct_spec v hl ho
        rw [h0] at h1'
        cases h1'
        exact rest
      · rw [if_neg ho] at h
        cases h

theorem reserve_grow_len {d : Deque T} (hs : d.Shape) (hr : d.map_.length ≤ 67108864) :
    ∃ d1, d.reserve (max kMinBucketNumber (umul d.map_.length 2)) = some d1 ∧ d1.Shape ∧
      d1.map_.length = max 4 (2 * d.map_.length) ∧ 0 < d1.start_ ∧ d1.start_ % 16 = 0 ∧
      d1.end_ < 16 * d1.map_.length ∧ d1.end_ = d1.start_ + (d.end_ - d.start_) ∧
      ∀ f, 16 * (d.start_ / 16) ≤ f → f < 16 * ((d.end_ + 15) / 16) →
        d1.cell (d1.start_ + (f - 16 * (d.start_ / 16))) = d.cell f := by
  obtain ⟨hse, hel, h16, hocc⟩ := hs
  have hmul : umul d.map_.length 2 = 2 * d.map_.length := by
    rw [umul_small (by omega)]
    omega
  rw [hmul]
  unfold kMinBucketNumber
  generalize hcdef : max 4 (2 * d.map_.length) = c
  have hc1 : d.map_.length < c := by omega
  have hc3 : 4 ≤ c ∧ c ≤ 2 * d.map_.length + 4 ∧ 2 * d.map_.length ≤ c := by omega
  obtain ⟨d1, hres, hlen1, hstart1, hend1, hget⟩ := reserve_spec hse hel hc1 (by omega)
  generalize hoccdef : (d.end_ + 15) / 16 - d.start_ / 16 = occ at hstart1 hget
  generalize hspdef : (c - occ) / 2 = sp at hstart1 hget
  have ho1 : occ ≤ d.map_.length := by omega
  have ho2 : d.end_ - d.start_ ≤ 16 * occ := by omega
  have hlay : ∀ j, d1.layout[j]? =
      if sp ≤ j ∧ j < sp + occ then d.layout[d.start_ / 16 + (j - sp)]?
      else if j < c then some none else none := by
    intro j
    rw [layout_getElem?, hget j, layout_getElem?]
    split
    · rfl
    · split <;> rfl
  refine ⟨d1, hres, ⟨by omega, by omega, ?_, ?_⟩, hlen1, by omega, by omega, by omega,
    hend1, ?_⟩
  · intro j n hj
    rw [hlay j] at hj
    split at hj
    · exact h16 _ _ hj
    · split at hj <;> simp at hj
  · intro j hj1 hj2
    have hw : sp ≤ j ∧ j < sp + occ := by omega
    rw [hlay j, if_pos hw]
    exact hocc _ (by omega) (by omega)
  · intro f hf1 hf2
    apply cell_congr
    · have hw : sp ≤ (d1.start_ + (f - 16 * (d.start_ / 16))) / 16 ∧
          (d1.start_ + (f - 16 * (d.start_ / 16))) / 16 < sp + occ := by omega
      rw [hget, if_pos hw]
      congr 1
      omega
    · omega

theorem push_back_tail_cell {d1 : Deque T} (v : T) (hs : d1.Shape)
    (he : d1.end_ < 16 * d1.map_.length) (hr : 16 * d1.map_.length ≤ 2147483648) :
    ∃ d3, ((if d1.end_ % kBucketSize = 0 then d1.bucket_reserve (uadd d1.end_ 1 / kBucketSize)
            else some d1).bind fun d2 =>
          (d2.construct (get_ptr d2.end_) v).bind fun d3 =>
          some { d3 with end_ := uadd d3.end_ 1 }) = some d3 ∧
      d3.Shape ∧ d3.map_.length = d1.map_.length ∧ d3.start_ = d1.start_ ∧
      d3.end_ = d1.end_ + 1 ∧ d3.cell d1.end_ = some (some v) ∧
      ∀ g x, g ≠ d1.end_ → d1.cell g = some x → d3.cell g = some x := by
  obtain ⟨d3, h3, hs3, hlen3, hst3, hen3⟩ := push_back_tail v hs he hr
  refine ⟨d3, h3, hs3, hlen3, hst3, hen3, ?_⟩
  rw [Option.bind_eq_some] at h3
  obtain ⟨d2, h2, h4⟩ := h3
  rw [Option.bind_eq_some] at h4
  obtain ⟨dc, hc, h5⟩ := h4
  have hd2 : d2.end_ = d1.end_ ∧ ∀ g x, d1.cell g = some x → d2.cell g = some x := by
    by_cases hm : d1.end_ % kBucketSize = 0
    · rw [if_pos hm] at h2
      obtain ⟨_, e2, c2⟩ := bucket_reserve_inv h2
      exact ⟨e2, c2⟩
    · rw [if_neg hm] at h2
      cases h2
      exact ⟨rfl, fun _ _ hx => hx⟩
  have hp : get_ptr d2.end_ = ⟨d1.end_ / 16, d1.end_ % 16⟩ := by
    rw [hd2.1]
    exact get_ptr_small (by omega)
  rw [hp] at hc
  have hcell : ∀ g, d3.cell g = dc.cell g := by
    intro g
    cases h5
    rfl
  constructor
  · rw [hcell]
    unfold cell
    rw [construct_raw hc, if_pos rfl]
  · intro g x hg hx
    rw [hcell]
    unfold cell
    rw [construct_raw hc, if_neg (fun hh => hg (ptr_flat_inj.mp hh))]
    exact hd2.2 g x hx

theorem push_front_tail_cell {d1 : Deque T} (v : T) (hs : d1.Shape)
    (hpos : 0 < d1.start_) (hr : 16 * d1.map_.length ≤ 2147483648) :
    ∃ d3, ((if d1.start_ % kBucketSize = 0 then
              d1.bucket_reserve (usub d1.start_ 1 / kBucketSize)
            else some d1).bind fun d2 =>
          (({ d2 with start_ := usub d2.start_ 1 } : Deque T).construct
            (get_ptr (usub d2.start_ 1)) v)) = some d3 ∧
      d3.Shape ∧ d3.map_.length = d1.map_.length ∧ d3.start_ + 1 = d1.start_ ∧
      d3.end_ = d1.end_ ∧ d3.cell (d1.start_ - 1) = some (some v) ∧
      ∀ g x, g ≠ d1.start_ - 1 → d1.cell g = some x → d3.cell g = some x := by
  obtain ⟨d3, h3, hs3, hlen3, hst3, hen3⟩ := push_front_tail v hs hpos hr
  refine ⟨d3, h3, hs3, hlen3, hst3, hen3, ?_⟩
  rw [Option.bind_eq_some] at h3
  obtain ⟨d2, h2, hc⟩ := h3
  have hd2 : d2.start_ = d1.start_ ∧ ∀ g x, d1.cell g = some x → d2.cell g = some x := by
    by_cases hm : d1.start_ % kBucketSize = 0
    · rw [if_pos hm] at h2
      obtain ⟨s2, _, c2⟩ := bucket_reserve_inv h2
      exact ⟨s2, c2⟩
    · rw [if_neg hm] at h2
      cases h2
      exact ⟨rfl, fun _ _ hx => hx⟩
  have hel := hs.2.1
  have hse := hs.1
  have hp : get_ptr (usub d2.start_ 1) = ⟨(d1.start_ - 1) / 16, (d1.start_ - 1) % 16⟩ := by
    rw [hd2.1, usub_small (by omega) (by omega)]
    exact get_ptr_small (by omega)
  rw [hp] at hc
  have hcell : ∀ g, ({ d2 with start_ := usub d2.start_ 1 } : Deque T).cell g = d2.cell g :=
    fun _ => rfl
  constructor
  · unfold cell
    rw [construct_raw hc, if_pos rfl]
  · intro g x hg hx
    unfold cell
    rw [construct_raw hc, if_neg (fun hh => hg (ptr_flat_inj.mp hh))]
    exact hd2.2 g x hx

end Deque

end Ends

/-- C11. For a deque that satisfies the container invariant (with at most
`2 ^ 26` map entries, so that the doubled map still has flat indices inside
the `int` range of `get_ptr` and `reserve`), `emplace_back(v)` returns a deque
whose size is one more and whose element at the old size is `v`, whether the
call grows the map or not; the map grows exactly when `end_` is at its end. -/
theorem C11_emplace_back_appends {T : Type} (d : Deque T) (v : T) (hinv : d.Inv)
    (hr : d.map_.length ≤ 67108864) :
    ∃ d1, d.emplace_back v = some d1 ∧ d1.size = d.size + 1 ∧ d1.elem d.size = some v ∧
      (d.end_ < 16 * d.map_.length → d1.map_.length = d.map_.length) ∧
      (d.end_ = 16 * d.map_.length → d1.map_.length = max 4 (2 * d.map_.length)) := by
  have hs := Deque.shape_of_inv hinv
  have hse := hs.1
  have hel := hs.2.1
  have hcap : d.capacity = 16 * d.map_.length := by
    unfold Deque.capacity kBucketSize
    exact umul_small (by omega)
  have hsize : d.size = d.end_ - d.start_ := usub_small hse (by omega)
  have key : ∃ d1, (if d.end_ ≥ 16 * d.map_.length then
        d.reserve (max kMinBucketNumber (umul d.map_.length 2)) else some d) = some d1 ∧
      d1.Shape ∧ d1.end_ < 16 * d1.map_.length ∧ 16 * d1.map_.length ≤ 2147483648 ∧
      d1.end_ = d1.start_ + (d.end_ - d.start_) ∧
      (d.end_ < 16 * d.map_.length → d1.map_.length = d.map_.length) ∧
      (d.end_ = 16 * d.map_.length → d1.map_.length = max 4 (2 * d.map_.length)) := by
    by_cases hfull : d.end_ ≥ 16 * d.map_.length
    · rw [if_pos hfull]
      obtain ⟨d1, h1, hs1, hlen1, _, _, he1, hend1, _⟩ := Deque.reserve_grow_len hs hr
      exact ⟨d1, h1, hs1, he1, by omega, hend1, by omega, fun _ => hlen1⟩
    · rw [if_neg hfull]
      exact ⟨d, rfl, hs, by omega, by omega, by omega, fun _ => rfl, by omega⟩
  obtain ⟨d1, h1, hs1, he1, hr1, hend1, hk1, hk2⟩ := key
  obtain ⟨d3, h3, hs3, hlen3, hst3, hen3, hc3, _⟩ := Deque.push_back_tail_cell v hs1 he1 hr1
  refine ⟨d3, ?_, ?_, ?_, ?_, ?_⟩
  · unfold Deque.emplace_back
    rw [hcap, h1]
    exact h3
  · unfold Deque.size
    rw [usub_small (by omega) (by omega), usub_small hse (by omega)]
    omega
  · rw [hsize, Deque.elem_eq_cell (by omega)]
    have : d3.start_ + (d.end_ - d.start_) = d1.end_ := by omega
    rw [this, hc3]
    rfl
  · intro h
    rw [hlen3]
    exact hk1 h
  · intro h
    rw [hlen3]
    exact hk2 h

set_option maxRecDepth 100000 in
/-- Witness for C11: `emplace_back(1)` on `Deque({1, 2, 3, 4})`. -/
theorem C11_emplace_back_appends_witness :
    sampleDeque.Inv ∧ sampleDeque.map_.length ≤ 67108864 ∧ sampleDeque.size = 4 ∧
    ∃ d1, sampleDeque.emplace_back 1 = some d1 ∧ d1.size = sampleDeque.size + 1 ∧
      d1.elem sampleDeque.size = some 1 ∧
      (sampleDeque.end_ < 16 * sampleDeque.map_.length →
        d1.map_.length = sampleDeque.map_.length) ∧
      (sampleDeque.end_ = 16 * sampleDeque.map_.length →
        d1.map_.length = max 4 (2 * sampleDeque.map_.length)) :=
  ⟨by decide, by decide, by decide,
   C11_emplace_back_appends sampleDeque 1 (by decide) (by decide)⟩

/-- The member `push_front`, for an allocator whose traits take the iterator
that line 455 hands to `construct`. For a deque that satisfies the container
invariant (with at most `2 ^ 26` map entries, so that the doubled map still has
flat indices inside the `int` range of `get_ptr` and `reserve`), it returns a
deque whose size is one more, whose element `0` is `v` and whose element
`i + 1` is the former element `i` for every `i` below the former size. The map
keeps its length unless `start_` is `0`, in which case it grows to
`max 4 (2 * map_.size())` entries. -/
theorem Deque.push_front_prepends {T : Type} (d : Deque T) (v : T) (hinv : d.Inv)
    (hr : d.map_.length ≤ 67108864) :
    ∃ d1, d.push_front v = some d1 ∧ d1.size = d.size + 1 ∧ d1.elem 0 = some v ∧
      (∀ i, i < d.size → d1.elem (i + 1) = d.elem i) ∧
      (d.start_ ≠ 0 → d1.map_.length = d.map_.length) ∧
      (d.start_ = 0 → d1.map_.length = max 4 (2 * d.map_.length)) := by
  have hs := Deque.shape_of_inv hinv
  have hse := hs.1
  have hel := hs.2.1
  have hsize : d.size = d.end_ - d.start_ := usub_small hse (by omega)
  have key : ∃ d1, (if d.start_ = 0 then
        d.reserve (max kMinBucketNumber (umul d.map_.length 2)) else some d) = some d1 ∧
      d1.Shape ∧ 0 < d1.start_ ∧ 16 * d1.map_.length ≤ 2147483648 ∧
      d1.end_ = d1.start_ + (d.end_ - d.start_) ∧
      (∀ i, i < d.end_ - d.start_ → d1.cell (d1.start_ + i) = d.cell (d.start_ + i)) ∧
      (d.start_ ≠ 0 → d1.map_.length = d.map_.length) ∧
      (d.start_ = 0 → d1.map_.length = max 4 (2 * d.map_.length)) := by
    by_cases hzero : d.start_ = 0
    · rw [if_pos hzero]
      obtain ⟨d1, h1, hs1, hlen1, hp1, _, _, hend1, hcell1⟩ := Deque.reserve_grow_len hs hr
      refine ⟨d1, h1, hs1, hp1, by omega, hend1, ?_, fun h => absurd hzero h, fun _ => hlen1⟩
      intro i hi
      have := hcell1 (d.start_ + i) (by omega) (by omega)
      rw [hzero] at this
      rw [hzero]
      simpa using this
    · rw [if_neg hzero]
      exact ⟨d, rfl, hs, by omega, by omega, by omega, fun _ _ => rfl, fun _ => rfl,
        fun h => absurd h hzero⟩
  obtain ⟨d1, h1, hs1, hp1, hr1, hend1, hcell1, hk1, hk2⟩ := key
  obtain ⟨d3, h3, hs3, hlen3, hst3, hen3, hc3, hframe⟩ :=
    Deque.push_front_tail_cell v hs1 hp1 hr1
  have hel1 := hs1.2.1
  refine ⟨d3, ?_, ?_, ?_, ?_, ?_, ?_⟩
  · unfold Deque.push_front
    rw [h1]
    exact h3
  · unfold Deque.size
    rw [usub_small (by omega) (by omega), usub_small hse (by omega)]
    omega
  · rw [Deque.elem_eq_cell (by omega)]
    have : d3.start_ + 0 = d1.start_ - 1 := by omega
    rw [this, hc3]
    rfl
  · intro i hi
    rw [hsize] at hi
    rw [Deque.elem_eq_cell (by omega), Deque.elem_eq_cell (by omega)]
    obtain ⟨x, hx⟩ := Deque.inv_live hinv (f := d.start_ + i) (by omega) (by omega)
    have h1c : d1.cell (d1.start_ + i) = some (some x) := by rw [hcell1 i hi, hx]
    have : d3.start_ + (i + 1) = d1.start_ + i := by omega
    rw [this, hframe _ _ (by omega) h1c, hx]
  · intro h
    rw [hlen3]
    exact hk1 h
  · intro h
    rw [hlen3]
    exact hk2 h

set_option maxRecDepth 100000 in
/-- The same on the deque of 32 elements whose `start_` is `0`, where the call
grows the map from four to eight entries. -/
theorem Deque.push_front_prepends_at_zero :
    frontDeque.Inv ∧ frontDeque.map_.length ≤ 67108864 ∧ frontDeque.start_ = 0 ∧
    frontDeque.size = 32 ∧ frontDeque.map_.length = 4 ∧
    ∃ d1, frontDeque.push_front 9 = some d1 ∧ d1.size = frontDeque.size + 1 ∧
      d1.elem 0 = some 9 ∧
      (∀ i, i < frontDeque.size → d1.elem (i + 1) = frontDeque.elem i) ∧
      (frontDeque.start_ ≠ 0 → d1.map_.length = frontDeque.map_.length) ∧
      (frontDeque.start_ = 0 → d1.map_.length = max 4 (2 * frontDeque.map_.length)) :=
  ⟨by decide, by decide, by decide, by decide, by decide,
   Deque.push_front_prepends frontDeque 9 (by decide) (by decide)⟩

/-! ## Bucket layout under `insert` and `erase` -/

section Calls

variable {T : Type}

namespace Deque

theorem budget_of_eq {d d1 : Deque T} {k : Nat} (hlen : d1.map_.length = d.map_.length)
    (hs : d1.start_ = d.start_) (he : d1.end_ = d.end_) (hb : d.Budget k) : d1.Budget k := by
  unfold Budget at *
  rw [hlen, hs, he]
  exact hb

theorem insert_loop_inv :
    ∀ (n : Nat) (d : Deque T) (idx : Nat) (t : T) (r : Deque T × T),
      d.insert_loop idx t n = some r →
      r.1.layout = d.layout ∧ r.1.start_ = d.start_ ∧ r.1.end_ = d.end_ := by
  intro n
  induction n with
  | zero =>
    intro d idx t r h
    unfold insert_loop at h
    cases h
    exact ⟨rfl, rfl, rfl⟩
  | succ n ih =>
    intro d idx t r h
    unfold insert_loop at h
    rw [Option.bind_eq_some] at h
    obtain ⟨v, _, h⟩ := h
    rw [Option.bind_eq_some] at h
    obtain ⟨d1, hc, h⟩ := h
    obtain ⟨a1, a2, a3⟩ := ih d1 _ v r h
    obtain ⟨b1, b2, b3⟩ := construct_inv hc
    exact ⟨by rw [a1, b1], by rw [a2, b2], by rw [a3, b3]⟩

theorem erase_loop_inv :
    ∀ (n : Nat) (d : Deque T) (idx : Nat) (r : Deque T),
      d.erase_loop idx n = some r →
      r.layout = d.layout ∧ r.start_ = d.start_ ∧ r.end_ = d.end_ := by
  intro n
  induction n with
  | zero =>
    intro d idx r h
    unfold erase_loop at h
    cases h
    exact ⟨rfl, rfl, rfl⟩
  | succ n ih =>
    intro d idx r h
    unfold erase_loop at h
    rw [Option.bind_eq_some] at h
    obtain ⟨v, _, h⟩ := h
    rw [Option.bind_eq_some] at h
    obtain ⟨d1, hc, h⟩ := h
    obtain ⟨a1, a2, a3⟩ := ih d1 _ r h
    obtain ⟨b1, b2, b3⟩ := construct_inv hc
    exact ⟨by rw [a1, b1], by rw [a2, b2], by rw [a3, b3]⟩

theorem insert_inv {d d1 : Deque T} {k idx : Nat} {v : T} (hs : d.Shape) (hb : d.Budget k)
    (hk : 4 * k + 64 ≤ 2147483648) (h : d.insert idx v = some d1) :
    d1.Shape ∧ d1.Budget (k + 1) ∧ d1.end_ - d1.start_ = d.end_ - d.start_ + 1 := by
  unfold insert at h
  rw [Option.bind_eq_some] at h
  obtain ⟨r, hr, h⟩ := h
  obtain ⟨a1, a2, a3⟩ := insert_loop_inv _ _ _ _ _ hr
  have hsr : r.1.Shape := shape_of_layout_eq a1 a2 a3 hs
  have hbr : r.1.Budget k := budget_of_eq (map_length_of_layout_eq a1) a2 a3 hb
  obtain ⟨d2, h2, hs2, hb2, hsz2⟩ := push_back_step r.2 hsr hbr hk
  rw [h] at h2
  cases h2
  exact ⟨hs2, hb2, by rw [hsz2, a2, a3]⟩

theorem erase_inv {d d1 : Deque T} {k idx : Nat} (hs : d.Shape) (hb : d.Budget k)
    (hk : 4 * k + 64 ≤ 2147483648) (hne : d.start_ < d.end_) (h : d.erase idx = some d1) :
    d1.Shape ∧ d1.Budget (k + 1) ∧ d1.end_ + 1 - d1.start_ = d.end_ - d.start_ := by
  unfold erase at h
  rw [Option.bind_eq_some] at h
  obtain ⟨d2, h2, h⟩ := h
  obtain ⟨a1, a2, a3⟩ := erase_loop_inv _ _ _ _ h2
  obtain ⟨b1, b2, b3⟩ := destroy_spec d (get_ptr idx)
  have hl : d2.layout = d.layout := by rw [a1, b1]
  have hst : d2.start_ = d.start_ := by rw [a2, b2]
  have hen : d2.end_ = d.end_ := by rw [a3, b3]
  have hs2 : d2.Shape := shape_of_layout_eq hl hst hen hs
  have hb2 : d2.Budget k := budget_of_eq (map_length_of_layout_eq hl) hst hen hb
  have hel := hs.2.1
  have hcap := hb.2.2.1
  have hsub : usub d2.end_ 1 = d.end_ - 1 := by
    rw [hen]
    exact usub_small (by omega) (by omega)
  rw [hsub] at h
  cases h
  have hsh : (⟨d2.map_, d2.start_, d.end_ - 1⟩ : Deque T).Shape :=
    shape_move_cursors hs2 (by omega) (by omega) (by omega)
  refine ⟨hsh, ?_, ?_⟩
  · exact @budget_step T d2 ⟨d2.map_, d2.start_, d.end_ - 1⟩ k hb2 rfl
      (by show d2.start_ ≤ d2.start_ + 1; omega) (by show d.end_ - 1 ≤ d2.end_ + 1; omega)
  · show d.end_ - 1 + 1 - d2.start_ = d.end_ - d.start_
    omega

end Deque


end Calls

section Initial

variable {T : Type}

/-- The deque built by the initializer-list constructor satisfies the layout
invariant and has growth budget `n + 32` for a list of `n` values. -/
theorem Deque.from_list_shape {l : List T} {d : Deque T} (hn : l.length ≤ 536870912)
    (h : Deque.from_list l = some d) :
    d.Shape ∧ d.Budget (l.length + 32) ∧ d.end_ - d.start_ = l.length := by
  obtain ⟨d', hd, hlen, hs, he, hlay, _⟩ := Deque.from_list_spec l hn
  rw [h] at hd
  cases hd
  obtain ⟨c1, c2, c3, c4, _⟩ := Deque.count_bucket_capacity_bounds hn
  generalize Deque.count_bucket_capacity l.length = cap at hlen hs he hlay c1 c2 c3 c4
  refine ⟨⟨by omega, by omega, ?_, ?_⟩, ?_, by omega⟩
  · intro j n hj
    rw [hlay j] at hj
    split at hj
    · cases hj
      rfl
    · split at hj <;> cases hj
  · intro j hj1 hj2
    have hw : cap / 4 ≤ j ∧ j < cap / 4 + (l.length + 15) / 16 := by omega
    rw [hlay j, if_pos hw]
  · unfold Deque.Budget
    rw [hlen]
    omega

end Initial


